import Mathlib

/-!
A verification development for the `toolindex` Go package: a shallow embedding
of the registry core (`index.go`), the cursor pagination helper
(`pagination.go`), and the default lexical searcher, together with theorems
settling the specification claims.

Modelling conventions:
* Go strings are modelled as `List Char` (`Str`); Go byte lengths coincide
  with character counts on the ASCII inputs used throughout.
* Go maps (`map[string]T`) are modelled as association lists with unique keys;
  all observable orderings in the source pass through an explicit sort, so
  map iteration order is never observable.
* Go code that can panic (negative-capacity `make`, out-of-range slicing) is
  modelled with `Option`: `none` is a panic, `some` a normal return.
* `sort.Slice` is deterministic but documented by Go only as "sorts the slice
  given the provided less function" and "not guaranteed to be stable".  The
  searcher is therefore parameterised by the sort function, with `SortSpec`
  capturing exactly the documented contract (a permutation ordered by the
  comparator).  `sortSliceModel` is a concrete executable instance; it is a
  stable insertion sort, which coincides with Go's implementation on slices
  shorter than 12 elements (Go uses insertion sort there).
-/

namespace ToolIndexSpec

set_option maxHeartbeats 1000000

/-- Go strings, modelled as character lists. -/
abbrev Str := List Char

/-- Characters of a Lean string literal, for concrete examples. -/
def chs (s : String) : Str := s.data

/-- Lexicographic order on `Str`, modelling Go's `<` on strings. -/
def lexLt : Str → Str → Bool
  | [], [] => false
  | [], _ :: _ => true
  | _ :: _, [] => false
  | a :: as, b :: bs => if a = b then lexLt as bs else decide (a < b)

/-!
JSON values, as produced by Go's `encoding/json` unmarshalling
(`nil`, `bool`, `float64`, `string`, `[]any`, `map[string]any`).
`JArr` is the element list of a JSON array and `JObj` the field list of a
JSON object (an association list standing for the Go map: keys unique,
order unobservable); numbers are abstracted to `Int`.  A mutual family is
used instead of nested `List`s so that sizes and comparisons stay
structurally recursive.
-/
mutual

inductive JVal where
  | null : JVal
  | bool (b : Bool) : JVal
  | num (n : Int) : JVal
  | str (s : Str) : JVal
  | arr (xs : JArr) : JVal
  | obj (fields : JObj) : JVal

inductive JArr where
  | nil : JArr
  | cons (head : JVal) (tail : JArr) : JArr

inductive JObj where
  | nil : JObj
  | cons (key : Str) (val : JVal) (tail : JObj) : JObj

end

/-- Number of fields of a JSON object (`len` of the Go map). -/
def JObj.length : JObj → Nat
  | .nil => 0
  | .cons _ _ tail => 1 + JObj.length tail

mutual

/-- Structural size of a JSON value, the fuel bound for the comparison
functions below. -/
def jsonSize : JVal → Nat
  | .null => 1
  | .bool _ => 1
  | .num _ => 1
  | .str _ => 1
  | .arr xs => 1 + jsonSizeArr xs
  | .obj fields => 1 + jsonSizeObj fields

/-- Structural size of a JSON array. -/
def jsonSizeArr : JArr → Nat
  | .nil => 1
  | .cons head tail => 1 + jsonSize head + jsonSizeArr tail

/-- Structural size of a JSON object. -/
def jsonSizeObj : JObj → Nat
  | .nil => 1
  | .cons _ val tail => 1 + jsonSize val + jsonSizeObj tail

end

/-!
The four mutually recursive comparison functions of index.go
(`jsonEqual` on decoded values, its array case, and the object-subset
walk with key lookup) terminate because the summed `sizeOf` of their
JSON-bearing arguments strictly decreases at every call.  They are
written below with that measure as an explicit structural fuel parameter
(decremented at every call), so that the functions reduce inside the
kernel; the wrappers supply the measure itself as fuel, which the
invariant `fuel ≥ measure` shows is never exhausted, so the fuel-out
`false` branches are unreachable and the wrappers compute exactly the
source functions.
-/

mutual

/-- Fueled core of `jsonEqual` (see module note above). -/
def jsonEqualF : Nat → JVal → JVal → Bool
  | 0, _, _ => false
  | fuel + 1, a, b =>
    match a, b with
    | .null, .null => true
    | .bool a, .bool b => a == b
    | .num a, .num b => a == b
    | .str a, .str b => a == b
    | .arr a, .arr b => jsonEqualArrF fuel a b
    | .obj a, .obj b => a.length == b.length && jsonEqualObjSubF fuel a b
    | _, _ => false

/-- Fueled element-wise comparison of JSON arrays. -/
def jsonEqualArrF : Nat → JArr → JArr → Bool
  | 0, _, _ => false
  | fuel + 1, xs, ys =>
    match xs, ys with
    | .nil, .nil => true
    | .cons a as, .cons b bs => jsonEqualF fuel a b && jsonEqualArrF fuel as bs
    | _, _ => false

/-- Fueled object-subset walk: every key of the first object must be
present in the second with an equal value. -/
def jsonEqualObjSubF : Nat → JObj → JObj → Bool
  | 0, _, _ => false
  | fuel + 1, xs, ys =>
    match xs with
    | .nil => true
    | .cons k v rest => jsonEqualLookupF fuel k v ys && jsonEqualObjSubF fuel rest ys

/-- Fueled lookup of key `k` in an object, comparing the value with `v`. -/
def jsonEqualLookupF : Nat → Str → JVal → JObj → Bool
  | 0, _, _, _ => false
  | fuel + 1, k, v, ys =>
    match ys with
    | .nil => false
    | .cons k2 v2 rest =>
      if k = k2 then jsonEqualF fuel v v2 else jsonEqualLookupF fuel k v rest

end

/-- `jsonEqual` from index.go, restricted to decoded JSON values: structural
equality with order-insensitive objects (the Go code iterates map `a` and
looks each key up in map `b`, after a length check). -/
def jsonEqual (a b : JVal) : Bool := jsonEqualF (jsonSize a + jsonSize b) a b

/-- The object-subset walk of `jsonEqual` (also used by `metaEqual`). -/
def jsonEqualObjSub (xs ys : JObj) : Bool :=
  jsonEqualObjSubF (jsonSizeObj xs + jsonSizeObj ys) xs ys

/-- A schema value as stored in a Go `any` field: either raw bytes
(`json.RawMessage` / `[]byte`), abstracted to their parse result
(`none` when the bytes are not valid JSON), or an already decoded value. -/
inductive SchemaVal where
  | raw (parsed : Option JVal) : SchemaVal
  | val (v : JVal) : SchemaVal

/-- `jsonEqual` from index.go at the level of schema fields
(`InputSchema`/`OutputSchema : any`): `nil` equals only `nil`; raw bytes are
unmarshalled and compared structurally (unparseable bytes compare unequal to
everything); decoded values compare structurally.  This captures "JSON
structural equality regardless of the concrete in-memory encoding". -/
def schemaEqual : Option SchemaVal → Option SchemaVal → Bool
  | none, none => true
  | none, some _ => false
  | some _, none => false
  | some (.raw none), some _ => false
  | some _, some (.raw none) => false
  | some (.raw (some a)), some (.raw (some b)) => jsonEqual a b
  | some (.raw (some a)), some (.val b) => jsonEqual a b
  | some (.val a), some (.raw (some b)) => jsonEqual a b
  | some (.val a), some (.val b) => jsonEqual a b

/-- `mcp.Icon`: Source, MIMEType, Theme and the Sizes slice. -/
structure Icon where
  Source : Str
  MIMEType : Str
  Theme : Str
  Sizes : List Str
deriving DecidableEq

/-- `mcp.ToolAnnotations` (named `ToolAnnots` here for Lean's lexer):
Title, ReadOnlyHint, IdempotentHint and the two `*bool` hints. -/
structure ToolAnnots where
  Title : Str
  ReadOnlyHint : Bool
  IdempotentHint : Bool
  DestructiveHint : Option Bool
  OpenWorldHint : Option Bool
deriving DecidableEq

/-- `toolmodel.Tool`: the MCP protocol fields plus the toolmodel extensions
(`Namespace`, `Tags`).  `Meta` is `mcp.Meta`, a `map[string]any`, modelled as
an association list of JSON values. -/
structure Tool where
  Name : Str
  Title : Str
  Description : Str
  InputSchema : Option SchemaVal
  OutputSchema : Option SchemaVal
  Annots : Option ToolAnnots
  Icons : List Icon
  Meta : JObj
  Namespace : Str
  Tags : List Str

/-- `iconEqual` from index.go: field-wise equality including the Sizes slice. -/
def iconEqual (a b : Icon) : Bool :=
  decide (a.Source = b.Source) && decide (a.MIMEType = b.MIMEType) &&
  decide (a.Theme = b.Theme) && decide (a.Sizes = b.Sizes)

/-- `iconsEqual` from index.go: element-wise comparison of the icon slices. -/
def iconsEqual : List Icon → List Icon → Bool
  | [], [] => true
  | a :: as, b :: bs => iconEqual a b && iconsEqual as bs
  | _, _ => false

/-- `metaEqual` from index.go: length check plus key lookup with `jsonEqual`
values, mirroring the Go map comparison. -/
def metaEqual (a b : JObj) : Bool :=
  a.length == b.length && jsonEqualObjSub a b

/-- `boolPtrEqual` from index.go. -/
def boolPtrEqual : Option Bool → Option Bool → Bool
  | none, none => true
  | some a, some b => a == b
  | _, _ => false

/-- `annotationsEqual` from index.go (`annotsEqual` here): nil-pointer cases,
then field-wise comparison. -/
def annotsEqual : Option ToolAnnots → Option ToolAnnots → Bool
  | none, none => true
  | none, some _ => false
  | some _, none => false
  | some a, some b =>
    decide (a.Title = b.Title) && (a.ReadOnlyHint == b.ReadOnlyHint) &&
    (a.IdempotentHint == b.IdempotentHint) &&
    boolPtrEqual a.DestructiveHint b.DestructiveHint &&
    boolPtrEqual a.OpenWorldHint b.OpenWorldHint

/-- `toolMCPFieldsEqual` from index.go: compares the MCP protocol fields
(Name, Title, Description, schemas, annotations, icons, metadata).  The
toolmodel extensions Namespace/Version/Tags are intentionally ignored. -/
def toolMCPFieldsEqual (a b : Tool) : Bool :=
  decide (a.Name = b.Name) && decide (a.Title = b.Title) &&
  decide (a.Description = b.Description) &&
  schemaEqual a.InputSchema b.InputSchema &&
  schemaEqual a.OutputSchema b.OutputSchema &&
  annotsEqual a.Annots b.Annots &&
  iconsEqual a.Icons b.Icons &&
  metaEqual a.Meta b.Meta

/-- Modelled from the spec: `toolmodel.Tool.ToolID` is external to this
repository; §6 of the spec derives it as `namespace + ":" + name`, or the
bare name when the namespace is empty. -/
def Tool.ToolID (t : Tool) : Str :=
  if t.Namespace = [] then t.Name else t.Namespace ++ ':' :: t.Name

/-- Modelled from the spec: `toolmodel.Tool.Validate` is external to this
repository.  The spec treats tools as opaque values with a `Validate`
capability; the package's contract test requires that the zero `Tool` fails
validation, so validation is modelled as requiring a non-empty `Name`. -/
def validateTool (t : Tool) : Bool := decide (t.Name ≠ [])

/-- Modelled from the spec: `toolmodel.NormalizeTags` is external to this
repository; §6 describes it as lowercase + trim + de-duplicate, idempotent. -/
def trimStr (l : Str) : Str :=
  ((l.dropWhile Char.isWhitespace).reverse.dropWhile Char.isWhitespace).reverse

/-- Lowercasing, modelling Go's `strings.ToLower` on the ASCII range. -/
def lowerStr (l : Str) : Str := l.map Char.toLower

/-- Order-preserving de-duplication keeping first occurrences. -/
def dedupAcc (seen : List Str) : List Str → List Str
  | [] => []
  | x :: xs => if x ∈ seen then dedupAcc seen xs else x :: dedupAcc (x :: seen) xs

/-- Order-preserving de-duplication keeping first occurrences. -/
def dedupStr (l : List Str) : List Str := dedupAcc [] l

/-- Modelled from the spec: `toolmodel.NormalizeTags` (external): lowercase,
trimmed, de-duplicated. -/
def normalizeTags (tags : List Str) : List Str :=
  dedupStr (tags.map (fun t => trimStr (lowerStr t)))

/-- `toolmodel.BackendKind`.  `locl` stands for `BackendKindLocal` (`local` is
a Lean keyword); `other` carries an unrecognised kind string. -/
inductive BackendKind where
  | mcp : BackendKind
  | provider : BackendKind
  | locl : BackendKind
  | other (s : Str) : BackendKind
deriving DecidableEq

/-- The kind's string value (`string(backend.Kind)` in Go). -/
def BackendKind.toStr : BackendKind → Str
  | .mcp => chs "mcp"
  | .provider => chs "provider"
  | .locl => chs "local"
  | .other s => s

/-- `toolmodel.MCPBackend`. -/
structure MCPBackend where
  ServerName : Str
deriving DecidableEq

/-- `toolmodel.ProviderBackend`. -/
structure ProviderBackend where
  ProviderID : Str
  ToolID : Str
deriving DecidableEq

/-- `toolmodel.LocalBackend`. -/
structure LocalBackend where
  Name : Str
deriving DecidableEq

/-- `toolmodel.ToolBackend`: a kind tag plus one pointer per kind
(`Option` models the Go nil pointer). -/
structure ToolBackend where
  Kind : BackendKind
  MCP : Option MCPBackend
  Provider : Option ProviderBackend
  Local : Option LocalBackend
deriving DecidableEq

/-- `strconv.Itoa` on natural numbers: decimal digits, most significant
first ("0" for zero). -/
def goItoaAux : Nat → Nat → Str
  | _, 0 => []
  | 0, _ + 1 => []
  | fuel + 1, n + 1 =>
    goItoaAux fuel ((n + 1) / 10) ++ [Nat.digitChar ((n + 1) % 10)]

def goItoa (n : Nat) : Str :=
  if n = 0 then ['0'] else goItoaAux n n

/-- One length-prefixed component of an identity key:
`Itoa(len(part)) + ":" + part`. -/
def encPart (p : Str) : Str := goItoa p.length ++ ':' :: p

/-- `encodeIdentity` from index.go: length-prefixed components joined by
`'|'`, preventing collisions when components contain separators. -/
def encodeIdentity : List Str → Str
  | [] => []
  | [p] => encPart p
  | p :: q :: rest => encPart p ++ '|' :: encodeIdentity (q :: rest)

/-- `backendIdentity` from index.go: the unique key for a backend, or the
empty string when the kind's detail pointer is nil or the kind unknown. -/
def backendIdentity (b : ToolBackend) : Str :=
  match b.Kind, b.MCP, b.Provider, b.Local with
  | .mcp, some m, _, _ => encodeIdentity [BackendKind.mcp.toStr, m.ServerName]
  | .provider, _, some p, _ =>
    encodeIdentity [BackendKind.provider.toStr, p.ProviderID, p.ToolID]
  | .locl, _, _, some l => encodeIdentity [BackendKind.locl.toStr, l.Name]
  | _, _, _, _ => []

/-- `validateBackend` from index.go, as a Boolean (the Go error message text
is dropped; the error value is always `ErrInvalidBackend`). -/
def validateBackend (b : ToolBackend) : Bool :=
  match b.Kind, b.MCP, b.Provider, b.Local with
  | .mcp, some m, _, _ => decide (m.ServerName ≠ [])
  | .provider, _, some p, _ => decide (p.ProviderID ≠ []) && decide (p.ToolID ≠ [])
  | .locl, _, _, some l => decide (l.Name ≠ [])
  | _, _, _, _ => false

/-- `MaxShortDescriptionLen` from index.go. -/
def MaxShortDescriptionLen : Nat := 120

/-- `Summary`: the lightweight view of a tool returned by search. -/
structure Summary where
  ID : Str
  Name : Str
  Namespace : Str
  ShortDescription : Str
  Tags : List Str
deriving DecidableEq

/-- `SearchDoc`: precomputed search data (ID, lowercased doc text, summary). -/
structure SearchDoc where
  ID : Str
  DocText : Str
  summary : Summary
deriving DecidableEq

/-- The error values of index.go (`ErrNotFound`, `ErrInvalidTool`,
`ErrInvalidBackend`, `ErrInvalidCursor`) plus `limitNotPositive`, the plain
`fmt.Errorf("limit must be positive")` error of `SearchPage` and
`ListNamespacesPage`, which wraps no sentinel. -/
inductive IndexError where
  | notFound : IndexError
  | invalidTool : IndexError
  | invalidBackend : IndexError
  | invalidCursor : IndexError
  | limitNotPositive : IndexError
deriving DecidableEq

/-- `toolRecord` from index.go: the stored tool, its backends in insertion
order, the identity-key → position map, and the cached derived fields. -/
structure ToolRecord where
  tool : Tool
  backends : List ToolBackend
  backendKeys : List (Str × Nat)
  normalizedTags : List Str
  docText : Str
  summary : Summary

/-- Association-list lookup (first occurrence), modelling Go map access. -/
def alookup {α : Type} : List (Str × α) → Str → Option α
  | [], _ => none
  | (k, v) :: rest, key => if k = key then some v else alookup rest key

/-- Association-list insert-or-replace, modelling Go map assignment
(replaces the first occurrence, appends when absent). -/
def aupdate {α : Type} : List (Str × α) → Str → α → List (Str × α)
  | [], key, val => [(key, val)]
  | (k, v) :: rest, key, val =>
    if k = key then (k, val) :: rest else (k, v) :: aupdate rest key val

/-- Association-list delete (first occurrence), modelling Go map `delete`. -/
def aerase {α : Type} : List (Str × α) → Str → List (Str × α)
  | [], _ => []
  | (k, v) :: rest, key => if k = key then rest else (k, v) :: aerase rest key

/-- Set insert for the namespaces set (`map[string]struct{}`). -/
def sinsert (l : List Str) (x : Str) : List Str :=
  if x ∈ l then l else x :: l

/-- `buildDocText` from index.go: lowercased name/namespace/description
joined with the already-normalized tags by single spaces
(`strings.Join(parts, " ")`). -/
def joinSpace : List Str → Str
  | [] => []
  | [p] => p
  | p :: q :: rest => p ++ ' ' :: joinSpace (q :: rest)

/-- `buildDocText` from index.go. -/
def buildDocText (tool : Tool) (normTags : List Str) : Str :=
  joinSpace ([lowerStr tool.Name, lowerStr tool.Namespace, lowerStr tool.Description]
    ++ normTags)

/-- `buildSummary` from index.go: the summary with the description truncated
to `MaxShortDescriptionLen`. -/
def buildSummary (tool : Tool) (normTags : List Str) : Summary :=
  { ID := tool.ToolID
    Name := tool.Name
    Namespace := tool.Namespace
    ShortDescription :=
      if MaxShortDescriptionLen < tool.Description.length
      then tool.Description.take MaxShortDescriptionLen
      else tool.Description
    Tags := normTags }

/-- `refreshRecordDerived` from index.go: recompute `docText` and `summary`. -/
def refreshRecordDerived (r : ToolRecord) : ToolRecord :=
  { r with
    docText := buildDocText r.tool r.normalizedTags
    summary := buildSummary r.tool r.normalizedTags }

/-- The `InMemoryIndex` state: the record map, the namespace set and counts,
and the search-doc cache with its dirty flag and version stamps.  Listener
state is omitted (change notification is not the subject of any claim);
the backend selector and searcher are the defaults.  Namespace counts are
`Int`, mirroring Go's `int`.  `searchDocs = none` models the nil slice. -/
structure IndexState where
  tools : List (Str × ToolRecord)
  namespaces : List Str
  namespaceCounts : List (Str × Int)
  searchDocs : Option (List SearchDoc)
  searchDocsDirty : Bool
  searchDocsVersion : Nat
  indexVersion : Nat
  searchDocsBuilds : Nat

/-- `NewInMemoryIndex`: the fresh index. -/
def initialState : IndexState :=
  { tools := []
    namespaces := []
    namespaceCounts := []
    searchDocs := none
    searchDocsDirty := false
    searchDocsVersion := 0
    indexVersion := 0
    searchDocsBuilds := 0 }

/-- `addNamespaceLocked` from index.go: increment the count (from the Go
zero value 0 when absent) and insert into the namespace set. -/
def addNamespace (s : IndexState) (ns : Str) : IndexState :=
  { s with
    namespaceCounts :=
      aupdate s.namespaceCounts ns ((alookup s.namespaceCounts ns).getD 0 + 1)
    namespaces := sinsert s.namespaces ns }

/-- `removeNamespaceLocked` from index.go: no-op when the namespace has no
count; delete count and set entry when the count is ≤ 1; else decrement. -/
def removeNamespace (s : IndexState) (ns : Str) : IndexState :=
  match alookup s.namespaceCounts ns with
  | none => s
  | some count =>
    if count ≤ 1 then
      { s with
        namespaceCounts := aerase s.namespaceCounts ns
        namespaces := s.namespaces.filter (fun x => decide (x ≠ ns)) }
    else
      { s with namespaceCounts := aupdate s.namespaceCounts ns (count - 1) }

/-- `markSearchDocsDirtyLocked` from index.go: set the dirty flag and bump
the index version. -/
def markSearchDocsDirty (s : IndexState) : IndexState :=
  { s with searchDocsDirty := true, indexVersion := s.indexVersion + 1 }

/-- Insertion placing `x` after every element it does not strictly precede:
`x` is inserted in front of the first `y` with `less x y`. -/
def insertBehind {α : Type} (less : α → α → Bool) (x : α) : List α → List α
  | [] => [x]
  | y :: ys => if less x y then x :: y :: ys else y :: insertBehind less x ys

/-- Model of Go's `sort.Slice`/`sort.Strings`: an insertion sort by the given
comparator.  It is stable (equal elements keep input order), which coincides
with Go's implementation on slices shorter than 12 elements (Go uses
insertion sort there); in general Go guarantees only the comparator
ordering, captured by the `Perm`/`Pairwise` lemmas proved below. -/
def sortSliceModel {α : Type} (less : α → α → Bool) (l : List α) : List α :=
  l.foldl (fun acc x => insertBehind less x acc) []

/-- `rebuildSearchDocsLocked` from index.go: flatten the record map into
search docs, sort ascending by tool ID, clear the dirty flag and stamp the
current index version. -/
def rebuildSearchDocs (s : IndexState) : IndexState :=
  { s with
    searchDocs := some (sortSliceModel (fun a b => lexLt a.ID b.ID)
      (s.tools.map (fun kv => ⟨kv.1, kv.2.docText, kv.2.summary⟩)))
    searchDocsDirty := false
    searchDocsVersion := s.indexVersion
    searchDocsBuilds := s.searchDocsBuilds + 1 }

/-- `snapshotSearchDocs` from index.go: serve the cached docs when clean and
stamped with the current index version, else rebuild (the double-checked
locking collapses to a single check in this sequential model). -/
def snapshotSearchDocs (s : IndexState) : IndexState × List SearchDoc × Nat :=
  if !s.searchDocsDirty && s.searchDocs.isSome
      && s.searchDocsVersion == s.indexVersion then
    (s, (s.searchDocs.getD []), s.searchDocsVersion)
  else
    let s' := rebuildSearchDocs s
    (s', s'.searchDocs.getD [], s'.searchDocsVersion)

/-- `Refresh` from index.go: invalidate and eagerly rebuild, returning the
resulting version. -/
def refresh (s : IndexState) : IndexState × Nat :=
  let s' := rebuildSearchDocs (markSearchDocsDirty s)
  (s', s'.indexVersion)

/-- `RegisterTool` from index.go, as a state transformer.  The pair's second
component is the returned error (`none` on success); every error branch in
the source returns before mutating the receiver, which the definition makes
explicit by pairing the error with the unchanged input state. -/
def registerTool (tool : Tool) (backend : ToolBackend) (s : IndexState) :
    IndexState × Option IndexError :=
  if !validateTool tool then (s, some .invalidTool)
  else if !validateBackend backend then (s, some .invalidBackend)
  else
    let toolID := tool.ToolID
    let backendKey := backendIdentity backend
    let normTags := normalizeTags tool.Tags
    match alookup s.tools toolID with
    | none =>
      let record := refreshRecordDerived
        { tool := tool
          backends := [backend]
          backendKeys := [(backendKey, 0)]
          normalizedTags := normTags
          docText := []
          summary := ⟨[], [], [], [], []⟩ }
      let s₁ := { s with tools := aupdate s.tools toolID record }
      let s₂ := addNamespace s₁ tool.Namespace
      (markSearchDocsDirty s₂, none)
    | some record =>
      if !toolMCPFieldsEqual record.tool tool then (s, some .invalidTool)
      else
        let s₁ :=
          if record.tool.Namespace ≠ tool.Namespace then
            addNamespace (removeNamespace s record.tool.Namespace) tool.Namespace
          else s
        let record₁ := refreshRecordDerived
          { record with tool := tool, normalizedTags := normTags }
        let record₂ :=
          match alookup record₁.backendKeys backendKey with
          | some existingIdx =>
            { record₁ with backends := record₁.backends.set existingIdx backend }
          | none =>
            { record₁ with
              backendKeys :=
                aupdate record₁.backendKeys backendKey record₁.backends.length
              backends := record₁.backends ++ [backend] }
        let s₂ := { s₁ with tools := aupdate s₁.tools toolID record₂ }
        (markSearchDocsDirty s₂, none)

/-- `ToolRegistration` from index.go. -/
structure ToolRegistration where
  tool : Tool
  backend : ToolBackend

/-- `RegisterTools` from index.go: sequential registration, failing fast on
the first error and leaving prior registrations committed. -/
def registerTools : List ToolRegistration → IndexState → IndexState × Option IndexError
  | [], s => (s, none)
  | reg :: rest, s =>
    match registerTool reg.tool reg.backend s with
    | (s', none) => registerTools rest s'
    | (s', some e) => (s', some e)

/-- `RegisterToolsFromMCP` from index.go: one shared mcp backend applied to
each tool in turn. -/
def registerToolsFromMCP (serverName : Str) : List Tool → IndexState → IndexState × Option IndexError
  | [], s => (s, none)
  | tool :: rest, s =>
    match registerTool tool ⟨.mcp, some ⟨serverName⟩, none, none⟩ s with
    | (s', none) => registerToolsFromMCP serverName rest s'
    | (s', some e) => (s', some e)

/-- Split at the first occurrence of a separator character; `none` when the
separator is absent.  Models `strings.Contains` + `strings.SplitN(_, _, 2)`. -/
def splitFirst (sep : Char) : Str → Option (Str × Str)
  | [] => none
  | c :: rest =>
    if c = sep then some ([], rest)
    else (splitFirst sep rest).map (fun p => (c :: p.1, p.2))

/-- The backend key `UnregisterBackend` searches for (the `switch kind`
building `searchKey` in index.go): mcp and local use the backendID directly,
provider uses the two halves of the split backendID; an unknown kind leaves
the key empty. -/
def unregisterSearchKey (kind : BackendKind) (backendID : Str)
    (providerParts : Option (Str × Str)) : Str :=
  match kind with
  | .mcp => encodeIdentity [kind.toStr, backendID]
  | .provider =>
    match providerParts with
    | some p => encodeIdentity [kind.toStr, p.1, p.2]
    | none => []
  | .locl => encodeIdentity [kind.toStr, backendID]
  | .other _ => []

/-- `UnregisterBackend` from index.go: validate the provider backendID
format, look up the record and the backend identity key, remove the backend
(compacting the stored indices), and delete the record and its namespace
count when the last backend was removed.  (The source also reads
`record.backends[foundIdx]` for the change event, which this model omits;
on the states reachable through the API the stored indices are always in
range, see the record well-formedness invariant below.) -/
def unregisterBackend (toolID : Str) (kind : BackendKind) (backendID : Str)
    (s : IndexState) : IndexState × Option IndexError :=
  let providerParts : Option (Str × Str) := splitFirst ':' backendID
  if kind = .provider ∧ providerParts = none then (s, some .invalidBackend)
  else if kind = .provider ∧
      (∃ p, providerParts = some p ∧ (p.1 = [] ∨ p.2 = [])) then
    (s, some .invalidBackend)
  else
    match alookup s.tools toolID with
    | none => (s, some .notFound)
    | some record =>
      match alookup record.backendKeys (unregisterSearchKey kind backendID providerParts) with
      | none => (s, some .notFound)
      | some foundIdx =>
        let record₁ :=
          { record with
            backendKeys :=
              (aerase record.backendKeys (unregisterSearchKey kind backendID providerParts)).map
                (fun kv => if foundIdx < kv.2 then (kv.1, kv.2 - 1) else kv)
            backends := record.backends.eraseIdx foundIdx }
        if record₁.backends.length = 0 then
          let s₁ := { s with tools := aerase s.tools toolID }
          let s₂ := removeNamespace s₁ record.tool.Namespace
          (markSearchDocsDirty s₂, none)
        else
          let s₁ := { s with tools := aupdate s.tools toolID record₁ }
          (markSearchDocsDirty s₁, none)

/-- `DefaultBackendSelector` from index.go: first local, else first
provider, else first mcp, else the first backend (or the zero backend when
the list is empty). -/
def defaultBackendSelector (backends : List ToolBackend) : ToolBackend :=
  match backends with
  | [] => ⟨.other [], none, none, none⟩
  | first :: _ =>
    match backends.find? (fun b => b.Kind == .locl) with
    | some b => b
    | none =>
      match backends.find? (fun b => b.Kind == .provider) with
      | some b => b
      | none =>
        match backends.find? (fun b => b.Kind == .mcp) with
        | some b => b
        | none => first

/-- `GetTool` from index.go: read-locked lookup returning the tool and the
selector-chosen default backend. -/
def getTool (id : Str) (s : IndexState) : Except IndexError (Tool × ToolBackend) :=
  match alookup s.tools id with
  | none => .error .notFound
  | some record => .ok (record.tool, defaultBackendSelector record.backends)

/-- `GetAllBackends` from index.go: read-locked lookup returning a copy of
the backend list. -/
def getAllBackends (id : Str) (s : IndexState) : Except IndexError (List ToolBackend) :=
  match alookup s.tools id with
  | none => .error .notFound
  | some record => .ok record.backends

/-- `ListNamespaces` from index.go: all namespaces, sorted ascending.
The error return is always nil in the source. -/
def listNamespaces (s : IndexState) : List Str :=
  sortSliceModel lexLt s.namespaces

/-- A cursor string (pagination.go).  The base64-encoded JSON payload is
abstracted to its decoded content: `empty` is the empty string, `wellFormed`
a string that base64- and JSON-decodes to a `cursorToken` (the encoding of
`(offset, checksum)` by `encodeCursor` is injective, which is all the proofs
use), and `malformed` any string failing base64 or JSON decoding. -/
inductive CursorStr where
  | empty : CursorStr
  | wellFormed (offset : Int) (checksum : Nat) : CursorStr
  | malformed : CursorStr
deriving DecidableEq

/-- `cursorToken` from pagination.go. -/
structure CursorToken where
  Offset : Int
  Checksum : Nat
deriving DecidableEq

/-- `encodeCursor` from pagination.go.  `json.Marshal` cannot fail on
`cursorToken`, so the error path is dead and omitted. -/
def encodeCursor (offset : Int) (checksum : Nat) : CursorStr :=
  .wellFormed offset checksum

/-- `decodeCursor` from pagination.go: the empty cursor decodes to offset 0
(checksum 0, unchecked); decode failures and negative offsets yield
`ErrInvalidCursor`. -/
def decodeCursor : CursorStr → Except IndexError CursorToken
  | .empty => .ok ⟨0, 0⟩
  | .malformed => .error .invalidCursor
  | .wellFormed offset checksum =>
    if offset < 0 then .error .invalidCursor else .ok ⟨offset, checksum⟩

/-- `paginateResults` from pagination.go.  The outer `Option` models Go
panics: with a decoded offset within range and a negative `limit`, the
slice expression `items[offset : offset+limit]` is out of range and the Go
code panics (`none`); all other paths return normally (`some`). -/
def paginateResults {α : Type} (items : List α) (limit : Int) (cursor : CursorStr)
    (checksum : Nat) : Option (Except IndexError (List α × CursorStr)) :=
  match decodeCursor cursor with
  | .error e => some (.error e)
  | .ok token =>
    if cursor ≠ .empty ∧ token.Checksum ≠ checksum then some (.error .invalidCursor)
    else if (items.length : Int) < token.Offset then some (.ok ([], .empty))
    else if limit < 0 then none
    else
      let off := token.Offset.toNat
      let endIdx := min (off + limit.toNat) items.length
      let page := (items.drop off).take (endIdx - off)
      let next := if endIdx < items.length then encodeCursor endIdx checksum else .empty
      some (.ok (page, next))

/-- `strings.Contains`: `needle` occurs as a contiguous substring (always
true for the empty needle). -/
def prefOf : Str → Str → Bool
  | [], _ => true
  | _ :: _, [] => false
  | a :: as, b :: bs => decide (a = b) && prefOf as bs

/-- Substring containment, modelling `strings.Contains`. -/
def containsStr (haystack needle : Str) : Bool :=
  prefOf needle haystack ||
    match haystack with
    | [] => false
    | _ :: t => containsStr t needle

/-- `scoredResult` from index.go. -/
structure ScoredResult where
  summary : Summary
  score : Nat
deriving DecidableEq

/-- The comparator passed to `sort.Slice` in `lexicalSearcher.Search`:
`scored[i].score > scored[j].score`. -/
def lessScore (a b : ScoredResult) : Bool := decide (b.score < a.score)

/-- The scoring loop body of `lexicalSearcher.Search`: name substring match
+100 (+50 when the lowercased name equals the query exactly), namespace
substring match +50, and +10 for a doc-text match only when neither
name nor namespace matched. -/
def lexicalScore (query : Str) (doc : SearchDoc) : Nat :=
  let nameLower := lowerStr doc.summary.Name
  let nameScore :=
    if containsStr nameLower query then
      if nameLower = query then 150 else 100
    else 0
  let nsLower := lowerStr doc.summary.Namespace
  let nsScore := if containsStr nsLower query then 50 else 0
  let score := nameScore + nsScore
  if score = 0 ∧ containsStr doc.DocText query then 10 else score

/-- The type of the stand-in for the `sort.Slice` call in
`lexicalSearcher.Search` (see `SortSpec` and `sortSliceModel`). -/
abbrev SortFn := List ScoredResult → List ScoredResult

/-- Go's documented contract for `sort.Slice` with the score comparator:
the output is a permutation of the input, ordered so that no later element
has a strictly greater score.  Go does not promise which permutation
(the sort is not guaranteed stable). -/
def SortSpec (f : SortFn) : Prop :=
  ∀ l, (f l).Perm l ∧ (f l).Pairwise (fun a b => b.score ≤ a.score)

/-- `lexicalSearcher.Search` from index.go, parameterised by the
`sort.Slice` stand-in `f`.  The result is `none` when the Go code panics:
for any negative `limit`, either `make([]Summary, 0, limit)` (empty query)
or the truncation `scored[:limit]` (non-empty query, where
`len(scored) > limit` always holds) is out of range.  The returned error is
always nil in the source, so a normal return carries only the summaries. -/
def lexicalSearch (f : SortFn) (query : Str) (limit : Int) (docs : List SearchDoc) :
    Option (List Summary) :=
  let q := lowerStr (trimStr query)
  if q = [] then
    if limit < 0 then none
    else some ((docs.take limit.toNat).map (fun d => d.summary))
  else
    let scored := docs.filterMap (fun d =>
      let sc := lexicalScore q d
      if 0 < sc then some ⟨d.summary, sc⟩ else none)
    let sorted := f scored
    if limit < 0 then none
    else some ((sorted.take limit.toNat).map (fun sr => sr.summary))

/-- `Search` from index.go: snapshot the search docs, then run the searcher
with the caller's limit (`none` models a searcher panic propagating). -/
def search (f : SortFn) (query : Str) (limit : Int) (s : IndexState) :
    IndexState × Option (List Summary) :=
  let snap := snapshotSearchDocs s
  (snap.1, lexicalSearch f query limit snap.2.1)

/-- `SearchPage` from index.go: reject non-positive limits with the plain
"limit must be positive" error, snapshot, run the searcher with
`limit = len(docs)`, and paginate with the snapshot version as checksum. -/
def searchPage (f : SortFn) (query : Str) (limit : Int) (cursor : CursorStr)
    (s : IndexState) :
    IndexState × Option (Except IndexError (List Summary × CursorStr)) :=
  if limit ≤ 0 then (s, some (.error .limitNotPositive))
  else
    let snap := snapshotSearchDocs s
    match lexicalSearch f query (snap.2.1.length : Int) snap.2.1 with
    | none => (snap.1, none)
    | some results =>
      match paginateResults results limit cursor snap.2.2 with
      | none => (snap.1, none)
      | some (.error e) => (snap.1, some (.error e))
      | some (.ok page) => (snap.1, some (.ok page))

/-- `ListNamespacesPage` from index.go: reject non-positive limits with the
plain "limit must be positive" error, then paginate the sorted namespace
list with the current index version as checksum (read-only: no state
change). -/
def listNamespacesPage (limit : Int) (cursor : CursorStr) (s : IndexState) :
    Option (Except IndexError (List Str × CursorStr)) :=
  if limit ≤ 0 then some (.error .limitNotPositive)
  else paginateResults (sortSliceModel lexLt s.namespaces) limit cursor s.indexVersion

/-- The full (untruncated) result list a `lexicalSearch` call is drawn from:
all documents for a trimmed-empty query, else the summaries of the sorted
positive-score documents.  `lexicalSearch f q n docs` returns the first
`n` entries of this list (lemma `lexicalSearch_eq_take`). -/
def lexBase (f : SortFn) (query : Str) (docs : List SearchDoc) : List Summary :=
  let q := lowerStr (trimStr query)
  if q = [] then docs.map (fun d => d.summary)
  else
    (f (docs.filterMap (fun d =>
      let sc := lexicalScore q d
      if 0 < sc then some ⟨d.summary, sc⟩ else none))).map (fun sr => sr.summary)

/-- The client-side pagination loop of the C2 claim: call `SearchPage`,
feed each returned next cursor into the following call (threading the
returned state), and concatenate the pages until the next cursor is empty.
`fuel` bounds the number of calls; `none` reports exhausted fuel, a searcher
panic, or an error from `SearchPage`. -/
def searchPagesAux (f : SortFn) (q : Str) (L : Int) :
    Nat → IndexState → CursorStr → Option (List Summary)
  | 0, _, _ => none
  | Nat.succ fuel, s, c =>
    match searchPage f q L c s with
    | (_, some (.ok (page, .empty))) => some page
    | (s', some (.ok (page, next))) =>
      (searchPagesAux f q L fuel s' next).map (fun rest => page ++ rest)
    | _ => none

/-- One public operation on the index, as a relation between the state
before and after the call (failed calls included; `getTool`,
`getAllBackends`, `listNamespaces` and `listNamespacesPage` never change
the state and are covered by reflexivity of the closure below). -/
inductive OpStep (f : SortFn) : IndexState → IndexState → Prop where
  | reg (t : Tool) (b : ToolBackend) (s : IndexState) :
      OpStep f s (registerTool t b s).1
  | unreg (id : Str) (k : BackendKind) (bid : Str) (s : IndexState) :
      OpStep f s (unregisterBackend id k bid s).1
  | refreshStep (s : IndexState) : OpStep f s (refresh s).1
  | searchStep (q : Str) (L : Int) (s : IndexState) :
      OpStep f s (search f q L s).1
  | searchPageStep (q : Str) (L : Int) (c : CursorStr) (s : IndexState) :
      OpStep f s (searchPage f q L c s).1

/-- A successful mutation: a `RegisterTool` or `UnregisterBackend` call that
returns no error. -/
inductive MutStep : IndexState → IndexState → Prop where
  | reg (t : Tool) (b : ToolBackend) (s : IndexState) :
      (registerTool t b s).2 = none → MutStep s (registerTool t b s).1
  | unreg (id : Str) (k : BackendKind) (bid : Str) (s : IndexState) :
      (unregisterBackend id k bid s).2 = none →
      MutStep s (unregisterBackend id k bid s).1

/-- Some successful mutation occurs between two states, surrounded by any
number of other operations. -/
def MutatedBetween (f : SortFn) (s₁ s₂ : IndexState) : Prop :=
  ∃ a b, Relation.ReflTransGen (OpStep f) s₁ a ∧ MutStep a b
    ∧ Relation.ReflTransGen (OpStep f) b s₂

/-- States reachable from the fresh index by `RegisterTool`,
`UnregisterBackend` and `Refresh` calls (successful or failing). -/
inductive Reach : IndexState → Prop where
  | init : Reach initialState
  | reg (t : Tool) (b : ToolBackend) (s : IndexState) :
      Reach s → Reach (registerTool t b s).1
  | unreg (id : Str) (k : BackendKind) (bid : Str) (s : IndexState) :
      Reach s → Reach (unregisterBackend id k bid s).1
  | refreshStep (s : IndexState) : Reach s → Reach (refresh s).1

deriving instance DecidableEq for Except

/-- A minimal valid tool for concrete examples. -/
def mkTool (name ns : String) : Tool :=
  ⟨chs name, [], chs "d", none, none, none, [], .nil, chs ns, []⟩

/-- A local backend with the given handler name, for concrete examples. -/
def mkLocal (n : String) : ToolBackend := ⟨.locl, none, none, some ⟨chs n⟩⟩

/-- A concrete index holding three tools in namespace `ns`, used by the
witnesses. -/
def demoState : IndexState :=
  (registerTool (mkTool "zebra" "ns") (mkLocal "h3")
    ((registerTool (mkTool "alpha" "ns") (mkLocal "h1")
      ((registerTool (mkTool "middle" "ns") (mkLocal "h2") initialState).1)).1)).1

/-- `demoState` after one `SearchPage` call (its cache now built). -/
def demoS1 : IndexState :=
  (searchPage (sortSliceModel lessScore) (chs "") 2 .empty demoState).1

/-- `demoS1` after a further successful registration (a mutation). -/
def demoS2 : IndexState :=
  (registerTool (mkTool "beta" "ns2") (mkLocal "h4") demoS1).1

/-- The record stored for the `zebra` tool in `demoState` (the fresh-ID
registration path of `RegisterTool`), used by a concrete witness. -/
def demoZebraRecord : ToolRecord :=
  refreshRecordDerived
    { tool := mkTool "zebra" "ns"
      backends := [mkLocal "h3"]
      backendKeys := [(backendIdentity (mkLocal "h3"), 0)]
      normalizedTags := normalizeTags (mkTool "zebra" "ns").Tags
      docText := []
      summary := ⟨[], [], [], [], []⟩ }

/-- The stored count for a namespace (the Go map's zero value 0 when the
key is absent). -/
def countVal (s : IndexState) (ns : Str) : Int :=
  (alookup s.namespaceCounts ns).getD 0

/-- The number of tool records whose namespace is `ns`. -/
def recordCount (s : IndexState) (ns : Str) : Nat :=
  s.tools.countP (fun kv => decide (kv.2.tool.Namespace = ns))

/-- Well-formedness of one tool record: every stored backend-key index is in
range of the backend list, and both the keys and the stored indices are
pairwise distinct. -/
def RecordWF (r : ToolRecord) : Prop :=
  (∀ kv ∈ r.backendKeys, kv.2 < r.backends.length)
  ∧ r.backendKeys.Pairwise (fun a b => a.1 ≠ b.1)
  ∧ r.backendKeys.Pairwise (fun a b => a.2 ≠ b.2)

/-- The registry invariant: namespace counts agree with the record map,
all stored counts are positive, the namespace set holds exactly the
namespaces with positive count, the three maps have distinct keys, and
every record is well formed. -/
def Inv (s : IndexState) : Prop :=
  (∀ ns, countVal s ns = (recordCount s ns : Int))
  ∧ (∀ kv ∈ s.namespaceCounts, 0 < kv.2)
  ∧ (∀ ns, ns ∈ s.namespaces ↔ 0 < countVal s ns)
  ∧ s.tools.Pairwise (fun a b => a.1 ≠ b.1)
  ∧ s.namespaceCounts.Pairwise (fun a b => a.1 ≠ b.1)
  ∧ s.namespaces.Nodup
  ∧ (∀ kv ∈ s.tools, RecordWF kv.2)

/-- Decimal digit value of a character. -/
def charDigitVal (c : Char) : Nat := c.toNat - 48

/-- Decimal parse of a digit string, the inverse of `goItoa`. -/
def natOfChars (l : Str) : Nat := Nat.ofDigits 10 ((l.map charDigitVal).reverse)

/-- The identity components a backend's key is built from: the kind string
followed by the kind-specific identity fields (empty for a nil detail
pointer or an unknown kind, where `backendIdentity` returns ""). -/
def identityComponents (b : ToolBackend) : List Str :=
  match b.Kind, b.MCP, b.Provider, b.Local with
  | .mcp, some m, _, _ => [BackendKind.mcp.toStr, m.ServerName]
  | .provider, _, some p, _ => [BackendKind.provider.toStr, p.ProviderID, p.ToolID]
  | .locl, _, _, some l => [BackendKind.locl.toStr, l.Name]
  | _, _, _, _ => []

/-! ### Properties of the sort model -/

theorem insertBehind_perm {α : Type} (less : α → α → Bool) (x : α) (l : List α) :
    (insertBehind less x l).Perm (x :: l) := by
  induction l with
  | nil => simp [insertBehind]
  | cons y ys ih =>
    simp only [insertBehind]
    by_cases h : less x y = true
    · simp [h]
    · simp only [Bool.not_eq_true] at h
      simp only [h, Bool.false_eq_true, if_false]
      exact (ih.cons y).trans (List.Perm.swap x y ys)

theorem foldl_insertBehind_perm {α : Type} (less : α → α → Bool) :
    ∀ (l acc : List α),
      (l.foldl (fun acc x => insertBehind less x acc) acc).Perm (acc ++ l) := by
  intro l
  induction l with
  | nil => intro acc; simp
  | cons x xs ih =>
    intro acc
    simp only [List.foldl_cons]
    refine (ih (insertBehind less x acc)).trans ?_
    refine (List.Perm.append_right xs (insertBehind_perm less x acc)).trans ?_
    simpa using List.perm_middle.symm

theorem sortSliceModel_perm {α : Type} (less : α → α → Bool) (l : List α) :
    (sortSliceModel less l).Perm l := by
  simpa [sortSliceModel] using foldl_insertBehind_perm less l []

theorem insertBehind_pairwise {α : Type} {P : α → α → Prop} {less : α → α → Bool}
    (htrans : ∀ a b c, P a b → P b c → P a c)
    (h₁ : ∀ a b, less a b = true → P a b)
    (h₂ : ∀ a b, less a b = false → P b a)
    (x : α) (l : List α) (hl : l.Pairwise P) :
    (insertBehind less x l).Pairwise P := by
  induction l with
  | nil => simp [insertBehind]
  | cons y ys ih =>
    rcases List.pairwise_cons.mp hl with ⟨hy, hys⟩
    simp only [insertBehind]
    by_cases h : less x y = true
    · simp only [h, if_true]
      refine List.pairwise_cons.mpr ⟨?_, hl⟩
      intro z hz
      rcases List.mem_cons.mp hz with rfl | hz
      · exact h₁ _ _ h
      · exact htrans _ _ _ (h₁ _ _ h) (hy z hz)
    · simp only [Bool.not_eq_true] at h
      simp only [h, Bool.false_eq_true, if_false]
      refine List.pairwise_cons.mpr ⟨?_, ih hys⟩
      intro z hz
      have hz' := ((insertBehind_perm less x ys).mem_iff).mp hz
      rcases List.mem_cons.mp hz' with rfl | hz'
      · exact h₂ _ _ h
      · exact hy z hz'

theorem sortSliceModel_pairwise {α : Type} {P : α → α → Prop} {less : α → α → Bool}
    (htrans : ∀ a b c, P a b → P b c → P a c)
    (h₁ : ∀ a b, less a b = true → P a b)
    (h₂ : ∀ a b, less a b = false → P b a)
    (l : List α) : (sortSliceModel less l).Pairwise P := by
  suffices h : ∀ (l acc : List α), acc.Pairwise P →
      (l.foldl (fun acc x => insertBehind less x acc) acc).Pairwise P by
    exact h l [] List.Pairwise.nil
  intro l
  induction l with
  | nil => intro acc hacc; simpa using hacc
  | cons x xs ih =>
    intro acc hacc
    exact ih _ (insertBehind_pairwise htrans h₁ h₂ x acc hacc)

/-- The concrete sort model satisfies Go's documented `sort.Slice` contract
for the score comparator. -/
theorem sortSpec_sortSliceModel : SortSpec (sortSliceModel lessScore) := by
  intro l
  refine ⟨sortSliceModel_perm _ l, ?_⟩
  refine sortSliceModel_pairwise ?_ ?_ ?_ l
  · intro a b c hab hbc; exact le_trans hbc hab
  · intro a b h
    exact le_of_lt (of_decide_eq_true h)
  · intro a b h
    exact not_lt.mp (of_decide_eq_false h)

theorem mem_sortSliceModel {α : Type} (less : α → α → Bool) (l : List α) (a : α) :
    a ∈ sortSliceModel less l ↔ a ∈ l :=
  (sortSliceModel_perm less l).mem_iff

/-! ### Claim C5: behaviour of `paginateResults` -/

/-- C5 (counterexample).  The claim quantifies over every limit, but with a
negative limit and a decodable in-range cursor `paginateResults` does not
return at all: the Go slice expression `items[offset : offset+limit]` is out
of range and the call panics, instead of producing the claimed page. -/
theorem C5_counterexample :
    paginateResults ([1, 2, 3] : List Nat) (-1) CursorStr.empty 0 = none := by
  rfl

/-- C5 (amended): for every item list, cursor and checksum, `paginateResults`
behaves as the claim describes, with the slice clause restricted to
non-negative limits (a negative limit panics, see the counterexample):
(a) a cursor failing base64/JSON decoding yields `InvalidCursor`;
(b) a decoded negative offset yields `InvalidCursor`;
(c) a matching cursor whose offset exceeds the item count yields an empty
page, an empty next cursor and no error;
(d) otherwise (limit ≥ 0) the page is the slice
`[offset, min(offset+limit, len))` and the next cursor encodes that end
offset with the same checksum iff the slice stops short of the end;
(e) the empty cursor means offset 0 with the checksum check skipped
(any stored checksum, no error). -/
theorem C5_paginate_amended {α : Type} (items : List α) (limit : Int)
    (chk chk' : Nat) (off : Int) :
    (paginateResults items limit CursorStr.malformed chk
        = some (.error .invalidCursor))
    ∧ (off < 0 → paginateResults items limit (.wellFormed off chk') chk
        = some (.error .invalidCursor))
    ∧ (0 ≤ off → (items.length : Int) < off →
        paginateResults items limit (.wellFormed off chk) chk
          = some (.ok ([], .empty)))
    ∧ (0 ≤ limit → 0 ≤ off → off ≤ (items.length : Int) →
        paginateResults items limit (.wellFormed off chk) chk
          = some (.ok ((items.drop off.toNat).take limit.toNat,
              if off.toNat + limit.toNat < items.length
              then encodeCursor (off.toNat + limit.toNat) chk
              else .empty)))
    ∧ (0 ≤ limit → paginateResults items limit CursorStr.empty chk
        = some (.ok (items.take limit.toNat,
            if limit.toNat < items.length
            then encodeCursor (limit.toNat : Int) chk
            else .empty))) := by
  refine ⟨rfl, ?_, ?_, ?_, ?_⟩
  · intro hoff
    simp [paginateResults, decodeCursor, hoff]
  · intro hoff hlen
    have : ¬ off < 0 := not_lt.mpr hoff
    simp [paginateResults, decodeCursor, this, hlen]
  · intro hlim hoff hlen
    have h0 : ¬ off < 0 := not_lt.mpr hoff
    have h1 : ¬ (items.length : Int) < off := not_lt.mpr hlen
    have h2 : ¬ limit < 0 := not_lt.mpr hlim
    simp only [paginateResults, decodeCursor, h0, if_false, h1, h2,
      ne_eq, not_true_eq_false, false_and, and_false, if_false,
      reduceCtorEq, not_false_eq_true, true_and]
    have hmin : min (off.toNat + limit.toNat) items.length < items.length
        ↔ off.toNat + limit.toNat < items.length := by omega
    by_cases hcase : off.toNat + limit.toNat < items.length
    · have : min (off.toNat + limit.toNat) items.length = off.toNat + limit.toNat := by
        omega
      simp [this, hcase, encodeCursor]
    · have hmin2 : min (off.toNat + limit.toNat) items.length = items.length := by
        omega
      have hofftn : off.toNat ≤ items.length := by omega
      simp only [hmin2, hcase, if_false, lt_irrefl, encodeCursor]
      have hdl : (items.drop off.toNat).length = items.length - off.toNat :=
        List.length_drop _ _
      have : (items.drop off.toNat).take (items.length - off.toNat)
          = items.drop off.toNat := List.take_of_length_le (by omega)
      rw [this, List.take_of_length_le (by omega)]
  · intro hlim
    have h2 : ¬ limit < 0 := not_lt.mpr hlim
    simp only [paginateResults, decodeCursor, Int.toNat_zero, ne_eq,
      not_true_eq_false, false_and, if_false, h2, Nat.zero_add, List.drop_zero,
      Nat.sub_zero, encodeCursor]
    have : ¬ (items.length : Int) < 0 := by omega
    simp only [this, if_false]
    by_cases hcase : limit.toNat < items.length
    · have : min limit.toNat items.length = limit.toNat := by omega
      simp [this, hcase]
    · have hm : min limit.toNat items.length = items.length := by omega
      simp only [hm, hcase, if_false, lt_irrefl]
      rw [List.take_of_length_le (le_refl _), List.take_of_length_le (by omega)]

/-- C5 (witness): the amended theorem applied at a concrete input:
3 items, limit 2, a matching cursor at offset 1 produce the middle slice and
a next cursor at offset 3 = end of list, hence the empty next cursor. -/
theorem C5_witness :
    paginateResults ([10, 20, 30] : List Nat) 2 (.wellFormed 1 7) 7
      = some (.ok ([20, 30], .empty)) := by
  have h := (C5_paginate_amended ([10, 20, 30] : List Nat) 2 7 7 1).2.2.2.1
    (by decide) (by decide) (by decide)
  simpa using h

/-! ### Claim C7: the default searcher with non-positive limits -/

/-- C7 (counterexample).  The claim says every `limit <= 0` yields an empty
result set and never an error; but with `limit = -1` the Go code panics
(`scored[:limit]` with a negative bound — or `make([]Summary, 0, limit)` on
the empty-query path) instead of returning an empty result. -/
theorem C7_counterexample :
    lexicalSearch (sortSliceModel lessScore) (chs "a") (-1) [] = none := by
  rfl

/-- C7 (amended): for every sort stand-in, query string and document list,
the default searcher's `Search` with `limit = 0` yields an empty result set
and never an error.  (For negative limits the call panics, see the
counterexample; the claim's `limit <= 0` must be restricted to `limit = 0`.) -/
theorem C7_search_zero_limit_amended (f : SortFn) (query : Str) (docs : List SearchDoc) :
    lexicalSearch f query 0 docs = some [] := by
  simp only [lexicalSearch]
  by_cases h : lowerStr (trimStr query) = []
  · simp [h]
  · simp [h]

/-! ### Claim C3: ranking of the default searcher -/

/-- C3 (code bug).  The claim (and CHANGELOG.md: "Deterministic tie-breaker
for equal-score search results to keep pagination stable") requires
equal-score results ordered by ascending tool ID, but the comparator passed
to `sort.Slice` compares scores only.  With the two documents below — both
scoring 150 for query "t" — given in descending ID order, the searcher
returns them as `[b:t, a:t]` (for two elements Go's `sort.Slice` is an
insertion sort, which keeps the input order of ties, exactly as the stable
`sortSliceModel` does), not in the claimed ascending-ID order `[a:t, b:t]`. -/
theorem C3_tie_order_violation :
    lexicalSearch (sortSliceModel lessScore) (chs "t") 5
        [⟨chs "b:t", chs "t b d", ⟨chs "b:t", chs "t", chs "b", [], []⟩⟩,
         ⟨chs "a:t", chs "t a d", ⟨chs "a:t", chs "t", chs "a", [], []⟩⟩]
      = some [⟨chs "b:t", chs "t", chs "b", [], []⟩,
              ⟨chs "a:t", chs "t", chs "a", [], []⟩] := by
  rfl

/-! ### Claim C9: injectivity of the identity encoding -/

theorem charDigitVal_digitChar : ∀ d < 10, charDigitVal (Nat.digitChar d) = d := by
  decide

theorem digitChar_isDigit : ∀ d < 10, (Nat.digitChar d).isDigit = true := by
  decide

theorem goItoaAux_eq (fuel : Nat) : ∀ n ≤ fuel,
    goItoaAux fuel n = ((Nat.digits 10 n).map Nat.digitChar).reverse := by
  induction fuel with
  | zero =>
    intro n hn
    have hn0 : n = 0 := Nat.le_zero.mp hn
    subst hn0
    simp [goItoaAux]
  | succ fuel ih =>
    intro n hn
    match n with
    | 0 => simp [goItoaAux]
    | n + 1 =>
      rw [goItoaAux, ih ((n + 1) / 10) (by omega),
        Nat.digits_def' (by norm_num : (1:Nat) < 10) (Nat.succ_pos n)]
      simp

theorem goItoa_eq (n : Nat) :
    goItoa n = if n = 0 then ['0']
      else ((Nat.digits 10 n).map Nat.digitChar).reverse := by
  by_cases h : n = 0
  · subst h; rfl
  · rw [goItoa, if_neg h, if_neg h, goItoaAux_eq n n le_rfl]

theorem natOfChars_goItoa (n : Nat) : natOfChars (goItoa n) = n := by
  by_cases h : n = 0
  · subst h; rfl
  · rw [goItoa_eq]
    simp only [h, if_false, natOfChars, List.map_reverse, List.reverse_reverse,
      List.map_map]
    have hmap : ∀ l : List Nat, (∀ d ∈ l, d < 10) →
        l.map (charDigitVal ∘ Nat.digitChar) = l := by
      intro l
      induction l with
      | nil => intro _; rfl
      | cons x xs ih =>
        intro hall
        simp only [List.map_cons, Function.comp_apply,
          charDigitVal_digitChar x (hall x (List.mem_cons_self _ _))]
        rw [ih (fun d hd => hall d (List.mem_cons_of_mem _ hd))]
    rw [hmap _ (fun d hd => Nat.digits_lt_base (by norm_num) hd), Nat.ofDigits_digits]

theorem goItoa_inj {m n : Nat} (h : goItoa m = goItoa n) : m = n := by
  have := congrArg natOfChars h
  rwa [natOfChars_goItoa, natOfChars_goItoa] at this

theorem goItoa_all_digits (n : Nat) : ∀ c ∈ goItoa n, c.isDigit = true := by
  intro c hc
  by_cases h : n = 0
  · subst h; simp only [goItoa, if_true] at hc
    simp only [List.mem_singleton] at hc
    subst hc; decide
  · rw [goItoa_eq] at hc
    simp only [h, if_false, List.mem_reverse, List.mem_map] at hc
    obtain ⟨d, hd, rfl⟩ := hc
    exact digitChar_isDigit d (Nat.digits_lt_base (by norm_num) hd)

theorem goItoa_ne_nil (n : Nat) : goItoa n ≠ [] := by
  by_cases h : n = 0
  · subst h; simp [goItoa]
  · rw [goItoa_eq]
    simp only [h, if_false, ne_eq, List.reverse_eq_nil_iff, List.map_eq_nil_iff]
    exact Nat.digits_ne_nil_iff_ne_zero.mpr h

theorem takeWhile_append_not {p : Char → Bool} :
    ∀ (l₁ : Str) (c : Char) (l₂ : Str), (∀ x ∈ l₁, p x = true) → p c = false →
      (l₁ ++ c :: l₂).takeWhile p = l₁ ∧ (l₁ ++ c :: l₂).dropWhile p = c :: l₂ := by
  intro l₁
  induction l₁ with
  | nil =>
    intro c l₂ _ hc
    simp [List.takeWhile, List.dropWhile, hc]
  | cons x xs ih =>
    intro c l₂ hall hc
    have hx : p x = true := hall x (List.mem_cons_self _ _)
    have := ih c l₂ (fun y hy => hall y (List.mem_cons_of_mem _ hy)) hc
    simp [List.takeWhile, List.dropWhile, hx, this.1, this.2]

/-- Heads of length-prefixed encodings are uniquely decodable even with
arbitrary suffixes: the maximal digit run pins down the length prefix, and
the length pins down the component boundary. -/
theorem encPart_head {a b r₁ r₂ : Str}
    (h : encPart a ++ r₁ = encPart b ++ r₂) : a = b ∧ r₁ = r₂ := by
  have ha : encPart a ++ r₁ = goItoa a.length ++ ':' :: (a ++ r₁) := by
    simp [encPart]
  have hb : encPart b ++ r₂ = goItoa b.length ++ ':' :: (b ++ r₂) := by
    simp [encPart]
  rw [ha, hb] at h
  have hcolon : (':').isDigit = false := by decide
  have hta := takeWhile_append_not (goItoa a.length) ':' (a ++ r₁)
    (goItoa_all_digits _) hcolon
  have htb := takeWhile_append_not (goItoa b.length) ':' (b ++ r₂)
    (goItoa_all_digits _) hcolon
  have hlen : goItoa a.length = goItoa b.length := by
    have := congrArg (List.takeWhile Char.isDigit) h
    rwa [hta.1, htb.1] at this
  have hlen' : a.length = b.length := goItoa_inj hlen
  have hdrop : (a ++ r₁) = (b ++ r₂) := by
    have := congrArg (List.dropWhile Char.isDigit) h
    rw [hta.2, htb.2] at this
    exact List.cons_injective this
  exact List.append_inj hdrop hlen'

/-- Unfolding `encodeIdentity` on a cons. -/
theorem encodeIdentity_cons (p : Str) (ps : List Str) :
    encodeIdentity (p :: ps)
      = encPart p ++ (match ps with
          | [] => []
          | _ :: _ => '|' :: encodeIdentity ps) := by
  cases ps with
  | nil => simp [encodeIdentity]
  | cons q rest => simp [encodeIdentity]

theorem encodeIdentity_ne_nil (p : Str) (ps : List Str) :
    encodeIdentity (p :: ps) ≠ [] := by
  rw [encodeIdentity_cons]
  intro h
  rcases List.append_eq_nil.mp h with ⟨h₁, _⟩
  exact goItoa_ne_nil p.length (List.append_eq_nil.mp h₁).1

theorem encodeIdentity_inj : ∀ ps qs : List Str,
    encodeIdentity ps = encodeIdentity qs → ps = qs := by
  intro ps
  induction ps with
  | nil =>
    intro qs h
    cases qs with
    | nil => rfl
    | cons q rest => exact absurd h.symm (encodeIdentity_ne_nil q rest)
  | cons p ps ih =>
    intro qs h
    cases qs with
    | nil => exact absurd h (encodeIdentity_ne_nil p ps)
    | cons q rest =>
      rw [encodeIdentity_cons, encodeIdentity_cons] at h
      obtain ⟨rfl, htail⟩ := encPart_head h
      cases ps with
      | nil =>
        cases rest with
        | nil => rfl
        | cons r rs => exact absurd htail.symm (by simp)
      | cons p' ps' =>
        cases rest with
        | nil => exact absurd htail (by simp)
        | cons r rs =>
          have := List.cons_injective htail
          rw [ih _ this]

/-- On a valid backend, `backendIdentity` is the encoding of the backend's
identity components. -/
theorem backendIdentity_encode (b : ToolBackend) (hv : validateBackend b = true) :
    backendIdentity b = encodeIdentity (identityComponents b) := by
  obtain ⟨k, m, p, l⟩ := b
  cases k <;> cases m <;> cases p <;> cases l <;>
    simp_all [validateBackend, backendIdentity, identityComponents]

/-- On a valid backend, the identity components start with the kind string. -/
theorem identityComponents_head (b : ToolBackend) (hv : validateBackend b = true) :
    ∃ t, identityComponents b = b.Kind.toStr :: t := by
  obtain ⟨k, m, p, l⟩ := b
  cases k <;> cases m <;> cases p <;> cases l <;>
    simp_all [validateBackend, identityComponents]

/-- A valid backend's kind is one of the three known kinds. -/
theorem validateBackend_kind (b : ToolBackend) (hv : validateBackend b = true) :
    b.Kind = .mcp ∨ b.Kind = .provider ∨ b.Kind = .locl := by
  obtain ⟨k, m, p, l⟩ := b
  cases k <;> cases m <;> cases p <;> cases l <;> simp_all [validateBackend]

/-- C9: the identity encoding is injective — distinct component sequences
always produce distinct keys, even when components contain `':'` or `'|'` —
and therefore two valid backends whose stored identity keys coincide agree
on their kind and on every identity component, so logically distinct
backends never collide in a record's `backendKeys` map. -/
theorem C9_encodeIdentity_injective :
    (∀ ps qs : List Str, encodeIdentity ps = encodeIdentity qs → ps = qs)
    ∧ (∀ b₁ b₂ : ToolBackend, validateBackend b₁ = true → validateBackend b₂ = true →
        backendIdentity b₁ = backendIdentity b₂ →
        b₁.Kind = b₂.Kind ∧ identityComponents b₁ = identityComponents b₂) := by
  refine ⟨encodeIdentity_inj, ?_⟩
  intro b₁ b₂ hv₁ hv₂ hid
  rw [backendIdentity_encode b₁ hv₁, backendIdentity_encode b₂ hv₂] at hid
  have hcomp := encodeIdentity_inj _ _ hid
  refine ⟨?_, hcomp⟩
  obtain ⟨t₁, e₁⟩ := identityComponents_head b₁ hv₁
  obtain ⟨t₂, e₂⟩ := identityComponents_head b₂ hv₂
  rw [e₁, e₂] at hcomp
  have hhead : b₁.Kind.toStr = b₂.Kind.toStr := (List.cons_eq_cons.mp hcomp).1
  rcases validateBackend_kind b₁ hv₁ with h₁ | h₁ | h₁ <;>
    rcases validateBackend_kind b₂ hv₂ with h₂ | h₂ | h₂ <;>
    rw [h₁, h₂] at hhead ⊢ <;>
    first
      | rfl
      | (exfalso; revert hhead; decide)

/-- C9 (witness): the injectivity theorem applied at concrete component
lists containing the separator characters. -/
theorem C9_witness :
    ([chs "a:b", chs "c|d"] : List Str) = [chs "a:b", chs "c|d"] :=
  C9_encodeIdentity_injective.1 [chs "a:b", chs "c|d"] [chs "a:b", chs "c|d"] rfl

/-! ### Claim C2: cursor pages compose to the unpaginated search result -/

theorem lexicalSearch_eq_take (f : SortFn) (q : Str) (docs : List SearchDoc)
    (limit : Int) (h : 0 ≤ limit) :
    lexicalSearch f q limit docs = some ((lexBase f q docs).take limit.toNat) := by
  have h' : ¬ limit < 0 := not_lt.mpr h
  simp only [lexicalSearch, lexBase, h', if_false]
  by_cases hq : lowerStr (trimStr q) = []
  · simp [hq, List.map_take]
  · simp [hq, List.map_take]

theorem lexBase_length (f : SortFn) (hf : SortSpec f) (q : Str) (docs : List SearchDoc) :
    (lexBase f q docs).length ≤ docs.length := by
  simp only [lexBase]
  by_cases hq : lowerStr (trimStr q) = []
  · simp [hq]
  · simp only [hq, if_false, List.length_map]
    rw [(hf _).1.length_eq]
    exact List.length_filterMap_le _ _

theorem snapshotSearchDocs_stable (s : IndexState) :
    snapshotSearchDocs (snapshotSearchDocs s).1 = snapshotSearchDocs s := by
  by_cases h : (!s.searchDocsDirty && s.searchDocs.isSome
      && s.searchDocsVersion == s.indexVersion) = true
  · simp [snapshotSearchDocs, h]
  · have h2 : (!(rebuildSearchDocs s).searchDocsDirty
        && (rebuildSearchDocs s).searchDocs.isSome
        && (rebuildSearchDocs s).searchDocsVersion == (rebuildSearchDocs s).indexVersion)
        = true := by
      simp [rebuildSearchDocs]
    simp [snapshotSearchDocs, h, h2]

/-- Characterisation of `paginateResults` used by the composition proof: a
positive limit and a cursor that is either empty at offset 0 or well formed
at `off` with the matching checksum produce the slice starting at `off` and
the cursor at the slice's end (empty at the end of the list). -/
theorem paginate_drop_take {α : Type} (items : List α) (L : Int) (hL : 0 < L)
    (off : Nat) (V : Nat) (c : CursorStr) (hoff : off ≤ items.length)
    (hc : (c = .empty ∧ off = 0) ∨ c = .wellFormed (off : Int) V) :
    paginateResults items L c V = some (.ok ((items.drop off).take L.toNat,
      if off + L.toNat < items.length
      then .wellFormed ((off + L.toNat : Nat) : Int) V
      else .empty)) := by
  have hL0 : ¬ L < 0 := by omega
  have hup : ∀ offi : Int, offi = (off : Int) →
      paginateResults items L (.wellFormed offi V) V
        = some (.ok ((items.drop off).take L.toNat,
          if off + L.toNat < items.length
          then .wellFormed ((off + L.toNat : Nat) : Int) V
          else .empty)) := by
    intro offi hoffi
    subst hoffi
    have h0 : ¬ (off : Int) < 0 := by omega
    have h1 : ¬ (items.length : Int) < (off : Int) := by
      omega
    simp only [paginateResults, decodeCursor, h0, if_false, h1, hL0, ne_eq,
      not_false_eq_true, true_and, reduceCtorEq, Int.toNat_natCast,
      not_true_eq_false, false_and, and_false, if_false, encodeCursor]
    by_cases hcase : off + L.toNat < items.length
    · have hm : min (off + L.toNat) items.length = off + L.toNat := by omega
      simp [hm, hcase]
    · have hm : min (off + L.toNat) items.length = items.length := by omega
      simp only [hm, hcase, if_false, lt_irrefl]
      have : (items.drop off).take (items.length - off) = items.drop off :=
        List.take_of_length_le (by simp)
      rw [this, List.take_of_length_le (by simp; omega)]
  rcases hc with ⟨rfl, rfl⟩ | rfl
  · have h := hup 0 (by simp)
    simp only [paginateResults, decodeCursor] at h ⊢
    simp only [ne_eq, not_true_eq_false, false_and, if_false] at h ⊢
    have h0 : ¬ (0 : Int) < 0 := by omega
    simp only [h0, if_false] at h
    simpa using h
  · exact hup _ rfl

/-- One `SearchPage` call at page offset `off` over any state: it returns
the snapshot state, the slice `[off, off+limit)` of the full result list,
and the cursor at the slice's end (empty when the end of the results is
reached). -/
theorem searchPage_step (f : SortFn) (hf : SortSpec f) (q : Str) (L : Int)
    (hL : 0 < L) (s : IndexState) (c : CursorStr) (off : Nat)
    (hoff : off ≤ (lexBase f q (snapshotSearchDocs s).2.1).length)
    (hc : (c = .empty ∧ off = 0)
      ∨ c = .wellFormed (off : Int) (snapshotSearchDocs s).2.2) :
    searchPage f q L c s = ((snapshotSearchDocs s).1, some (.ok
      (((lexBase f q (snapshotSearchDocs s).2.1).drop off).take L.toNat,
       if off + L.toNat < (lexBase f q (snapshotSearchDocs s).2.1).length
       then .wellFormed ((off + L.toNat : Nat) : Int) (snapshotSearchDocs s).2.2
       else .empty))) := by
  have hL' : ¬ L ≤ 0 := not_le.mpr hL
  have hlex : lexicalSearch f q ((snapshotSearchDocs s).2.1.length : Int)
      (snapshotSearchDocs s).2.1
      = some (lexBase f q (snapshotSearchDocs s).2.1) := by
    rw [lexicalSearch_eq_take f q _ _ (by positivity)]
    congr 1
    simp only [Int.toNat_natCast]
    exact List.take_of_length_le (lexBase_length f hf q _)
  have hpag := paginate_drop_take (lexBase f q (snapshotSearchDocs s).2.1) L hL off
    (snapshotSearchDocs s).2.2 c hoff hc
  simp only [searchPage, hL', if_false, hlex, hpag]

/-- `searchPage` depends on the state only through its snapshot, so the loop
behaves identically on two states with equal snapshots. -/
theorem searchPagesAux_congr (f : SortFn) (q : Str) (L : Int) (fuel : Nat)
    (s s' : IndexState) (h : snapshotSearchDocs s = snapshotSearchDocs s')
    (c : CursorStr) :
    searchPagesAux f q L fuel s c = searchPagesAux f q L fuel s' c := by
  cases fuel with
  | zero => rfl
  | succ fuel =>
    by_cases hL : L ≤ 0
    · simp [searchPagesAux, searchPage, hL]
    · have hpage : searchPage f q L c s = searchPage f q L c s' := by
        simp only [searchPage, h, hL, if_false]
      simp only [searchPagesAux, hpage]

/-- The pagination loop over a snapshot-stable state collects exactly the
results from offset `off` on. -/
theorem searchPagesAux_drop (f : SortFn) (hf : SortSpec f) (q : Str) (L : Int)
    (hL : 0 < L) (s : IndexState) (hs : (snapshotSearchDocs s).1 = s) :
    ∀ (fuel off : Nat) (c : CursorStr),
      off ≤ (lexBase f q (snapshotSearchDocs s).2.1).length →
      (lexBase f q (snapshotSearchDocs s).2.1).length - off < fuel →
      ((c = .empty ∧ off = 0)
        ∨ c = .wellFormed (off : Int) (snapshotSearchDocs s).2.2) →
      searchPagesAux f q L fuel s c
        = some ((lexBase f q (snapshotSearchDocs s).2.1).drop off) := by
  intro fuel
  induction fuel with
  | zero => intro off c _ hfuel _; omega
  | succ fuel ih =>
    intro off c hoff hfuel hc
    have hstep := searchPage_step f hf q L hL s c off hoff hc
    rw [hs] at hstep
    have hLpos : 1 ≤ L.toNat := by omega
    by_cases hcase : off + L.toNat < (lexBase f q (snapshotSearchDocs s).2.1).length
    · simp only [searchPagesAux, hstep, hcase, if_true]
      have harg1 : off + L.toNat ≤ (lexBase f q (snapshotSearchDocs s).2.1).length := by
        omega
      have harg2 : (lexBase f q (snapshotSearchDocs s).2.1).length - (off + L.toNat) < fuel := by
        omega
      have hrec := ih (off + L.toNat) (.wellFormed ((off + L.toNat : Nat) : Int)
        (snapshotSearchDocs s).2.2) harg1 harg2 (Or.inr rfl)
      rw [hrec]
      simp only [Option.map_some']
      congr 1
      conv_rhs => rw [← List.take_append_drop L.toNat
        ((lexBase f q (snapshotSearchDocs s).2.1).drop off)]
      congr 1
      rw [List.drop_drop]
    · simp only [searchPagesAux, hstep, hcase, if_false]
      congr 1
      apply List.take_of_length_le
      simp only [List.length_drop]
      omega

/-- C2: over an unchanged registry, calling `SearchPage` with any positive
limit, starting from the empty cursor and feeding each returned cursor into
the following call until the cursor comes back empty, concatenates — in
order — to exactly the unpaginated `Search` result for the same query with
any limit covering all documents.  `f` is the `sort.Slice` stand-in
(universally quantified over Go's documented contract `SortSpec`), `fuel`
any bound exceeding the snapshot size. -/
theorem C2_searchpage_pages_compose (f : SortFn) (hf : SortSpec f)
    (s : IndexState) (q : Str) (L M : Int) (fuel : Nat) (hL : 0 < L)
    (hM : ((snapshotSearchDocs s).2.1.length : Int) ≤ M)
    (hfuel : (snapshotSearchDocs s).2.1.length < fuel) :
    searchPagesAux f q L fuel s .empty = (search f q M s).2 := by
  have hstable := snapshotSearchDocs_stable s
  have hRlen := lexBase_length f hf q (snapshotSearchDocs s).2.1
  have hcongr := searchPagesAux_congr f q L fuel s (snapshotSearchDocs s).1
    hstable.symm .empty
  rw [hcongr]
  have hdrop := searchPagesAux_drop f hf q L hL (snapshotSearchDocs s).1
    (by rw [hstable]) fuel 0 .empty
  rw [hstable] at hdrop
  have hloop := hdrop (by omega) (by omega) (Or.inl ⟨rfl, rfl⟩)
  rw [hloop]
  have hM0 : (0 : Int) ≤ M := le_trans (by positivity) hM
  simp only [search, lexicalSearch_eq_take f q _ M hM0, List.drop_zero]
  congr 1
  rw [List.take_of_length_le]
  omega

/-! ### Claim C4: mutations invalidate outstanding cursors -/

theorem registerTool_err_unchanged (t : Tool) (b : ToolBackend) (s : IndexState)
    (h : (registerTool t b s).2 ≠ none) : (registerTool t b s).1 = s := by
  by_cases c1 : validateTool t
  · by_cases c2 : validateBackend b
    · rcases halk : alookup s.tools t.ToolID with _ | record
      · simp [registerTool, c1, c2, halk] at h
      · by_cases c4 : toolMCPFieldsEqual record.tool t
        · simp [registerTool, c1, c2, halk, c4] at h
        · simp [registerTool, c1, c2, halk, c4]
    · simp [registerTool, c1, c2]
  · simp [registerTool, c1]

theorem registerTool_ok_version (t : Tool) (b : ToolBackend) (s : IndexState)
    (h : (registerTool t b s).2 = none) :
    (registerTool t b s).1.indexVersion = s.indexVersion + 1 := by
  by_cases c1 : validateTool t
  · by_cases c2 : validateBackend b
    · rcases halk : alookup s.tools t.ToolID with _ | record
      · simp [registerTool, c1, c2, halk, markSearchDocsDirty, addNamespace]
      · by_cases c4 : toolMCPFieldsEqual record.tool t
        · by_cases c5 : record.tool.Namespace = t.Namespace
          · simp [registerTool, c1, c2, halk, c4, c5, markSearchDocsDirty]
          · simp only [registerTool, c1, c2, halk, c4, c5, Bool.not_true,
              Bool.false_eq_true, if_false, if_true, ne_eq, not_false_eq_true,
              if_true, markSearchDocsDirty, addNamespace]
            simp only [removeNamespace]
            rcases alookup s.namespaceCounts record.tool.Namespace with _ | cnt
            · rfl
            · by_cases c6 : cnt ≤ 1 <;> simp [c6]
        · simp [registerTool, c1, c2, halk, c4] at h
    · simp [registerTool, c1, c2] at h
  · simp [registerTool, c1] at h

theorem markSearchDocsDirty_indexVersion (s : IndexState) :
    (markSearchDocsDirty s).indexVersion = s.indexVersion + 1 := rfl

theorem removeNamespace_indexVersion (s : IndexState) (ns : Str) :
    (removeNamespace s ns).indexVersion = s.indexVersion := by
  simp only [removeNamespace]
  rcases alookup s.namespaceCounts ns with _ | cnt
  · rfl
  · by_cases c : cnt ≤ 1 <;> simp [c]

theorem addNamespace_indexVersion (s : IndexState) (ns : Str) :
    (addNamespace s ns).indexVersion = s.indexVersion := rfl

theorem unregisterBackend_err_unchanged (id : Str) (k : BackendKind) (bid : Str)
    (s : IndexState) (h : (unregisterBackend id k bid s).2 ≠ none) :
    (unregisterBackend id k bid s).1 = s := by
  by_cases c1 : k = BackendKind.provider ∧ splitFirst ':' bid = none
  · simp only [unregisterBackend, if_pos c1]
  by_cases c2 : k = BackendKind.provider ∧
      ∃ p, splitFirst ':' bid = some p ∧ (p.1 = [] ∨ p.2 = [])
  · simp only [unregisterBackend, if_neg c1, if_pos c2]
  simp only [unregisterBackend, if_neg c1, if_neg c2] at h ⊢
  rcases halk : alookup s.tools id with _ | record
  · simp only [halk]
  simp only [halk] at h ⊢
  rcases hfk : alookup record.backendKeys
      (unregisterSearchKey k bid (splitFirst ':' bid)) with _ | foundIdx
  · simp only [hfk]
  simp only [hfk] at h
  exfalso
  apply h
  by_cases c5 : (record.backends.eraseIdx foundIdx).length = 0 <;> simp [c5]

theorem unregisterBackend_ok_version (id : Str) (k : BackendKind) (bid : Str)
    (s : IndexState) (h : (unregisterBackend id k bid s).2 = none) :
    (unregisterBackend id k bid s).1.indexVersion = s.indexVersion + 1 := by
  by_cases c1 : k = BackendKind.provider ∧ splitFirst ':' bid = none
  · simp only [unregisterBackend, if_pos c1] at h
    simp at h
  by_cases c2 : k = BackendKind.provider ∧
      ∃ p, splitFirst ':' bid = some p ∧ (p.1 = [] ∨ p.2 = [])
  · simp only [unregisterBackend, if_neg c1, if_pos c2] at h
    simp at h
  simp only [unregisterBackend, if_neg c1, if_neg c2] at h ⊢
  rcases halk : alookup s.tools id with _ | record
  · simp only [halk] at h; simp at h
  simp only [halk] at h ⊢
  rcases hfk : alookup record.backendKeys
      (unregisterSearchKey k bid (splitFirst ':' bid)) with _ | foundIdx
  · simp only [hfk] at h; simp at h
  simp only [hfk] at h ⊢
  by_cases c5 : (record.backends.eraseIdx foundIdx).length = 0 <;>
    simp [c5, markSearchDocsDirty_indexVersion, removeNamespace_indexVersion]

theorem snapshot_fst_indexVersion (s : IndexState) :
    (snapshotSearchDocs s).1.indexVersion = s.indexVersion := by
  by_cases h : (!s.searchDocsDirty && s.searchDocs.isSome
      && s.searchDocsVersion == s.indexVersion) = true <;>
    simp [snapshotSearchDocs, h, rebuildSearchDocs]

theorem snapshot_checksum (s : IndexState) :
    (snapshotSearchDocs s).2.2 = s.indexVersion := by
  by_cases h : (!s.searchDocsDirty && s.searchDocs.isSome
      && s.searchDocsVersion == s.indexVersion) = true
  · have hv : s.searchDocsVersion = s.indexVersion := by
      have := ((Bool.and_eq_true _ _).mp h).2
      simpa using this
    simp only [snapshotSearchDocs]
    rw [if_pos h]
    exact hv
  · simp [snapshotSearchDocs, h, rebuildSearchDocs]

theorem searchPage_fst (f : SortFn) (q : Str) (L : Int) (c : CursorStr)
    (s : IndexState) :
    (searchPage f q L c s).1 = s ∨ (searchPage f q L c s).1 = (snapshotSearchDocs s).1 := by
  by_cases hL : L ≤ 0
  · left; simp [searchPage, hL]
  · right
    simp only [searchPage, hL, if_false]
    rcases hlex : lexicalSearch f q ((snapshotSearchDocs s).2.1.length : Int)
        (snapshotSearchDocs s).2.1 with _ | results
    · simp [hlex]
    · simp only [hlex]
      rcases hpag : paginateResults results L c (snapshotSearchDocs s).2.2 with _ | e
      · simp [hpag]
      · rcases e with e | page <;> simp [hpag]

theorem OpStep_version_le {f : SortFn} {s s' : IndexState} (h : OpStep f s s') :
    s.indexVersion ≤ s'.indexVersion := by
  cases h with
  | reg t b s =>
    rcases he : (registerTool t b s).2 with _ | e
    · rw [registerTool_ok_version t b s he]; omega
    · rw [registerTool_err_unchanged t b s (by simp [he])]
  | unreg id k bid s =>
    rcases he : (unregisterBackend id k bid s).2 with _ | e
    · rw [unregisterBackend_ok_version id k bid s he]; omega
    · rw [unregisterBackend_err_unchanged id k bid s (by simp [he])]
  | refreshStep s => simp [refresh, rebuildSearchDocs, markSearchDocsDirty]
  | searchStep q L s =>
    simp [search, snapshot_fst_indexVersion]
  | searchPageStep q L c s =>
    rcases searchPage_fst f q L c s with h | h <;> rw [h]
    rw [snapshot_fst_indexVersion]

theorem rtc_version_le {f : SortFn} {s s' : IndexState}
    (h : Relation.ReflTransGen (OpStep f) s s') :
    s.indexVersion ≤ s'.indexVersion := by
  induction h with
  | refl => exact le_refl _
  | tail _ hstep ih => exact le_trans ih (OpStep_version_le hstep)

theorem MutStep_version_lt {s s' : IndexState} (h : MutStep s s') :
    s.indexVersion < s'.indexVersion := by
  cases h with
  | reg t b s he => rw [registerTool_ok_version t b s he]; omega
  | unreg id k bid s he => rw [unregisterBackend_ok_version id k bid s he]; omega

theorem MutatedBetween_version_lt {f : SortFn} {s₁ s₂ : IndexState}
    (h : MutatedBetween f s₁ s₂) : s₁.indexVersion < s₂.indexVersion := by
  obtain ⟨a, b, h₁, hm, h₂⟩ := h
  exact lt_of_le_of_lt (rtc_version_le h₁)
    (lt_of_lt_of_le (MutStep_version_lt hm) (rtc_version_le h₂))

theorem searchPage_version (f : SortFn) (q : Str) (L : Int) (c : CursorStr)
    (s : IndexState) : (searchPage f q L c s).1.indexVersion = s.indexVersion := by
  rcases searchPage_fst f q L c s with h | h
  · rw [h]
  · rw [h, snapshot_fst_indexVersion]

/-- Any non-empty next cursor issued by `paginateResults` carries the
supplied checksum. -/
theorem paginate_issued {α : Type} (items : List α) (L : Int) (c : CursorStr)
    (chk : Nat) (page : List α) (next : CursorStr)
    (h : paginateResults items L c chk = some (.ok (page, next)))
    (hne : next ≠ .empty) : ∃ off : Nat, next = .wellFormed (off : Int) chk := by
  simp only [paginateResults] at h
  rcases hdec : decodeCursor c with e | token <;> simp only [hdec] at h
  · simp at h
  · by_cases h1 : c ≠ CursorStr.empty ∧ token.Checksum ≠ chk
    · rw [if_pos h1] at h; simp at h
    rw [if_neg h1] at h
    by_cases h2 : (items.length : Int) < token.Offset
    · rw [if_pos h2] at h
      have hnext := congrArg Prod.snd (Except.ok.inj (Option.some.inj h))
      exact absurd hnext.symm hne
    rw [if_neg h2] at h
    by_cases h3 : L < 0
    · rw [if_pos h3] at h; simp at h
    rw [if_neg h3] at h
    have hnext := congrArg Prod.snd (Except.ok.inj (Option.some.inj h))
    simp only at hnext
    by_cases hcond : min (token.Offset.toNat + L.toNat) items.length < items.length
    · rw [if_pos hcond] at hnext
      exact ⟨min (token.Offset.toNat + L.toNat) items.length, by rw [← hnext]; rfl⟩
    · rw [if_neg hcond] at hnext
      exact absurd hnext.symm hne

/-- Presenting a cursor whose embedded checksum differs from the current
one always fails with `InvalidCursor` (when the embedded offset is negative
the decode step itself returns `InvalidCursor`). -/
theorem paginate_wf_stale {α : Type} (items : List α) (L : Int) (off : Int)
    (V chk : Nat) (h : V ≠ chk) :
    paginateResults items L (.wellFormed off V) chk
      = some (.error .invalidCursor) := by
  simp only [paginateResults, decodeCursor]
  by_cases hoff : off < 0
  · simp [hoff]
  · simp [hoff, h]

theorem searchPage_fst_stale (f : SortFn) (q' : Str) (L' : Int) (hL' : 0 < L')
    (s₂ : IndexState) (off : Int) (V : Nat) (h : V ≠ s₂.indexVersion) :
    (searchPage f q' L' (.wellFormed off V) s₂).2
      = some (.error .invalidCursor) := by
  have hL : ¬ L' ≤ 0 := by omega
  have hpag := paginate_wf_stale
    ((lexBase f q' (snapshotSearchDocs s₂).2.1).take
      (((snapshotSearchDocs s₂).2.1.length : Int)).toNat)
    L' off V (snapshotSearchDocs s₂).2.2 (by rw [snapshot_checksum]; exact h)
  have hlex := lexicalSearch_eq_take f q' (snapshotSearchDocs s₂).2.1
    (((snapshotSearchDocs s₂).2.1.length : Nat) : Int) (by positivity)
  simp only [searchPage, hL, if_false]
  rw [hlex]
  simp only [hpag]

theorem listNamespacesPage_stale (L' : Int) (hL' : 0 < L') (s₂ : IndexState)
    (off : Int) (V : Nat) (h : V ≠ s₂.indexVersion) :
    listNamespacesPage L' (.wellFormed off V) s₂
      = some (.error .invalidCursor) := by
  have hL : ¬ L' ≤ 0 := by omega
  simp only [listNamespacesPage, hL, if_false]
  exact paginate_wf_stale _ _ _ _ _ h

/-- A non-empty cursor issued by `SearchPage` embeds the index version at
snapshot time as its checksum. -/
theorem searchPage_issued (f : SortFn) (q : Str) (L : Int) (c₀ : CursorStr)
    (s : IndexState) (page : List Summary) (cur : CursorStr)
    (h : (searchPage f q L c₀ s).2 = some (.ok (page, cur)))
    (hne : cur ≠ .empty) : ∃ off : Nat, cur = .wellFormed (off : Int) s.indexVersion := by
  by_cases hL : L ≤ 0
  · simp [searchPage, hL] at h
  · simp only [searchPage, hL, if_false] at h
    rcases hlex : lexicalSearch f q ((snapshotSearchDocs s).2.1.length : Int)
        (snapshotSearchDocs s).2.1 with _ | results <;> simp only [hlex] at h
    · simp at h
    · rcases hpag : paginateResults results L c₀ (snapshotSearchDocs s).2.2
          with _ | e <;> simp only [hpag] at h
      · simp at h
      · rcases e with e | pr
        · simp at h
        · simp only [Option.some_inj, Except.ok.injEq] at h
          rw [← snapshot_checksum s]
          exact paginate_issued results L c₀ _ page cur (by rw [hpag, h]) hne

/-- A non-empty cursor issued by `ListNamespacesPage` embeds the current
index version as its checksum. -/
theorem listNamespacesPage_issued (L : Int) (c₀ : CursorStr) (s : IndexState)
    (page : List Str) (cur : CursorStr)
    (h : listNamespacesPage L c₀ s = some (.ok (page, cur)))
    (hne : cur ≠ .empty) : ∃ off : Nat, cur = .wellFormed (off : Int) s.indexVersion := by
  by_cases hL : L ≤ 0
  · simp [listNamespacesPage, hL] at h
  · simp only [listNamespacesPage, hL, if_false] at h
    exact paginate_issued _ L c₀ _ page cur h hne

/-- C4: a cursor issued by `SearchPage` or `ListNamespacesPage`, presented
(to either paginated operation, with a positive limit) after any successful
mutation — `RegisterTool` or `UnregisterBackend`, each of which strictly
increases the index version — has a stale checksum and fails with
`InvalidCursor`. -/
theorem C4_mutation_invalidates_cursor (f : SortFn) (s s₂ : IndexState)
    (q q' : Str) (L L' : Int) (c₀ : CursorStr) (cur : CursorStr)
    (hL' : 0 < L') (hne : cur ≠ .empty) :
    ((∃ page, (searchPage f q L c₀ s).2 = some (.ok (page, cur))) →
      MutatedBetween f (searchPage f q L c₀ s).1 s₂ →
      (searchPage f q' L' cur s₂).2 = some (.error .invalidCursor)
      ∧ listNamespacesPage L' cur s₂ = some (.error .invalidCursor))
    ∧ ((∃ nsPage, listNamespacesPage L c₀ s = some (.ok (nsPage, cur))) →
      MutatedBetween f s s₂ →
      (searchPage f q' L' cur s₂).2 = some (.error .invalidCursor)
      ∧ listNamespacesPage L' cur s₂ = some (.error .invalidCursor)) := by
  constructor
  · rintro ⟨page, hiss⟩ hmut
    obtain ⟨off, rfl⟩ := searchPage_issued f q L c₀ s page cur hiss hne
    have hv : s.indexVersion ≠ s₂.indexVersion := by
      have := MutatedBetween_version_lt hmut
      rw [searchPage_version] at this
      omega
    exact ⟨searchPage_fst_stale f q' L' hL' s₂ _ _ hv,
      listNamespacesPage_stale L' hL' s₂ _ _ hv⟩
  · rintro ⟨nsPage, hiss⟩ hmut
    obtain ⟨off, rfl⟩ := listNamespacesPage_issued L c₀ s nsPage cur hiss hne
    have hv : s.indexVersion ≠ s₂.indexVersion := by
      have := MutatedBetween_version_lt hmut
      omega
    exact ⟨searchPage_fst_stale f q' L' hL' s₂ _ _ hv,
      listNamespacesPage_stale L' hL' s₂ _ _ hv⟩

/-- C2 (witness): on the three-tool index, pages of size 2 concatenate to
the full search result. -/
theorem C2_witness :
    searchPagesAux (sortSliceModel lessScore) (chs "") 2 4 demoState .empty
      = (search (sortSliceModel lessScore) (chs "") 10 demoState).2 :=
  C2_searchpage_pages_compose (sortSliceModel lessScore) sortSpec_sortSliceModel
    demoState (chs "") 2 10 4 (by decide) (by decide) (by decide)

/-- C4 (witness): a cursor issued at version 3 of the three-tool index,
presented to both paginated operations after a successful registration,
fails with `InvalidCursor`. -/
theorem C4_witness :
    (searchPage (sortSliceModel lessScore) (chs "") 2 (.wellFormed 2 3) demoS2).2
        = some (.error .invalidCursor)
      ∧ listNamespacesPage 2 (.wellFormed 2 3) demoS2
        = some (.error .invalidCursor) :=
  (C4_mutation_invalidates_cursor (sortSliceModel lessScore) demoState demoS2
      (chs "") (chs "") 2 2 .empty (.wellFormed 2 3) (by decide) (by decide)).1
    ⟨[⟨chs "ns:alpha", chs "alpha", chs "ns", chs "d", []⟩,
      ⟨chs "ns:middle", chs "middle", chs "ns", chs "d", []⟩], by decide⟩
    ⟨demoS1, demoS2, Relation.ReflTransGen.refl,
      MutStep.reg (mkTool "beta" "ns2") (mkLocal "h4") demoS1 (by decide),
      Relation.ReflTransGen.refl⟩

/-! ### Association-list lemmas -/

theorem alookup_aupdate_self {α : Type} (l : List (Str × α)) (k : Str) (v : α) :
    alookup (aupdate l k v) k = some v := by
  induction l with
  | nil => simp [aupdate, alookup]
  | cons kv rest ih =>
    obtain ⟨k', v'⟩ := kv
    by_cases h : k' = k
    · subst h; simp [aupdate, alookup]
    · simp [aupdate, alookup, h, ih]

theorem alookup_aupdate_ne {α : Type} (l : List (Str × α)) (k k' : Str) (v : α)
    (h : k' ≠ k) : alookup (aupdate l k v) k' = alookup l k' := by
  induction l with
  | nil =>
    simp only [aupdate, alookup]
    rw [if_neg (fun hh => h hh.symm)]
  | cons kv rest ih =>
    obtain ⟨k₀, v₀⟩ := kv
    by_cases h₀ : k₀ = k
    · subst h₀
      simp only [aupdate, if_pos rfl, alookup]
      rw [if_neg (fun hh => h hh.symm), if_neg (fun hh => h hh.symm)]
    · simp only [aupdate, if_neg h₀, alookup]
      by_cases h₁ : k₀ = k'
      · simp [h₁]
      · rw [if_neg h₁, if_neg h₁, ih]

theorem mem_of_alookup {α : Type} {l : List (Str × α)} {k : Str} {v : α}
    (h : alookup l k = some v) : (k, v) ∈ l := by
  induction l with
  | nil => simp [alookup] at h
  | cons kv rest ih =>
    obtain ⟨k₀, v₀⟩ := kv
    by_cases h₀ : k₀ = k
    · subst h₀
      simp only [alookup, if_true, eq_self_iff_true, Option.some_inj] at h
      subst h; exact List.mem_cons_self _ _
    · simp only [alookup, if_neg h₀] at h
      exact List.mem_cons_of_mem _ (ih h)

/-- Decomposition of an association list at a found key: the list splits at
the first occurrence, and `aupdate`/`aerase` act exactly there. -/
theorem alookup_decomp {α : Type} {l : List (Str × α)} {k : Str} {v : α}
    (v' : α) (h : alookup l k = some v) :
    ∃ l₁ l₂, l = l₁ ++ (k, v) :: l₂ ∧ (∀ kv ∈ l₁, kv.1 ≠ k)
      ∧ aupdate l k v' = l₁ ++ (k, v') :: l₂ ∧ aerase l k = l₁ ++ l₂ := by
  induction l with
  | nil => simp [alookup] at h
  | cons kv rest ih =>
    obtain ⟨k₀, v₀⟩ := kv
    by_cases h₀ : k₀ = k
    · subst h₀
      simp only [alookup, if_true, eq_self_iff_true, Option.some_inj] at h
      subst h
      exact ⟨[], rest, by simp, by simp, by simp [aupdate], by simp [aerase]⟩
    · simp only [alookup, if_neg h₀] at h
      obtain ⟨l₁, l₂, hsplit, hne, hupd, hdel⟩ := ih h
      refine ⟨(k₀, v₀) :: l₁, l₂, by simp [hsplit], ?_, ?_, ?_⟩
      · intro kv hkv
        rcases List.mem_cons.mp hkv with rfl | hkv
        · exact h₀
        · exact hne kv hkv
      · simp [aupdate, h₀, hupd]
      · simp [aerase, h₀, hdel]

theorem addNamespace_tools (s : IndexState) (ns : Str) :
    (addNamespace s ns).tools = s.tools := rfl

theorem removeNamespace_tools (s : IndexState) (ns : Str) :
    (removeNamespace s ns).tools = s.tools := by
  simp only [removeNamespace]
  rcases alookup s.namespaceCounts ns with _ | cnt
  · rfl
  · by_cases c : cnt ≤ 1 <;> simp [c]

theorem markSearchDocsDirty_tools (s : IndexState) :
    (markSearchDocsDirty s).tools = s.tools := rfl

/-! ### Claim C1: re-registration of an existing tool ID -/

/-- C1: in any state where `tool.ToolID` is already registered with record
`r`, registering a valid `tool`/`backend` pair whose protocol-level fields
(name, title, description, schemas under JSON-structural equality,
annotations, icons, metadata) equal the stored ones succeeds, and the
stored tool (hence its tags and namespace extensions) and normalized tags
are afterwards those of the new registration (latest wins); if any
protocol-level field differs, the call returns `InvalidTool` and the state —
stored record, namespace counts and index version included — is unchanged. -/
theorem C1_reregistration (tool : Tool) (backend : ToolBackend) (s : IndexState)
    (r : ToolRecord) (hv : validateTool tool = true)
    (hb : validateBackend backend = true)
    (hlk : alookup s.tools tool.ToolID = some r) :
    (toolMCPFieldsEqual r.tool tool = true →
      (registerTool tool backend s).2 = none
      ∧ ∃ r', alookup (registerTool tool backend s).1.tools tool.ToolID = some r'
          ∧ r'.tool = tool ∧ r'.normalizedTags = normalizeTags tool.Tags)
    ∧ (toolMCPFieldsEqual r.tool tool = false →
      (registerTool tool backend s).2 = some .invalidTool
      ∧ (registerTool tool backend s).1 = s) := by
  constructor
  · intro heq
    simp only [registerTool, hv, hb, Bool.not_true, Bool.false_eq_true, if_false,
      hlk, heq]
    constructor
    · by_cases hns : r.tool.Namespace = tool.Namespace <;>
        rcases alookup (refreshRecordDerived
            { r with tool := tool, normalizedTags := normalizeTags tool.Tags }).backendKeys
            (backendIdentity backend) with _ | i <;>
        simp_all
    · by_cases hns : r.tool.Namespace ≠ tool.Namespace <;>
        [skip; (simp only [hns, if_false])] <;>
      · rcases halk2 : alookup (refreshRecordDerived
            { r with tool := tool, normalizedTags := normalizeTags tool.Tags }).backendKeys
            (backendIdentity backend) with _ | i <;>
          simp only [hns, if_true, if_false, halk2, markSearchDocsDirty_tools,
            addNamespace_tools, removeNamespace_tools] <;>
          exact ⟨_, alookup_aupdate_self _ _ _, rfl, rfl⟩
  · intro hne
    simp [registerTool, hv, hb, hlk, hne]

/-- C1 (witness): on the three-tool index, re-registering `alpha` with equal
protocol fields and a new backend succeeds, and re-registering with a
changed description fails with `InvalidTool` leaving the state unchanged. -/
theorem C1_witness :
    ((registerTool (mkTool "alpha" "ns") (mkLocal "h9") demoState).2 = none
      ∧ ∃ r', alookup (registerTool (mkTool "alpha" "ns") (mkLocal "h9")
            demoState).1.tools (mkTool "alpha" "ns").ToolID = some r'
          ∧ r'.tool = mkTool "alpha" "ns"
          ∧ r'.normalizedTags = normalizeTags (mkTool "alpha" "ns").Tags)
    ∧ ((registerTool ⟨chs "alpha", [], chs "changed", none, none, none, [], .nil,
          chs "ns", []⟩ (mkLocal "h9") demoState).2 = some .invalidTool
      ∧ (registerTool ⟨chs "alpha", [], chs "changed", none, none, none, [], .nil,
          chs "ns", []⟩ (mkLocal "h9") demoState).1 = demoState) :=
  ⟨(C1_reregistration (mkTool "alpha" "ns") (mkLocal "h9") demoState
      (refreshRecordDerived
        { tool := mkTool "alpha" "ns", backends := [mkLocal "h1"],
          backendKeys := [(backendIdentity (mkLocal "h1"), 0)],
          normalizedTags := normalizeTags (mkTool "alpha" "ns").Tags,
          docText := [], summary := ⟨[], [], [], [], []⟩ })
      (by decide) (by decide) (by rfl)).1 (by decide),
   (C1_reregistration ⟨chs "alpha", [], chs "changed", none, none, none, [], .nil,
        chs "ns", []⟩ (mkLocal "h9") demoState
      (refreshRecordDerived
        { tool := mkTool "alpha" "ns", backends := [mkLocal "h1"],
          backendKeys := [(backendIdentity (mkLocal "h1"), 0)],
          normalizedTags := normalizeTags (mkTool "alpha" "ns").Tags,
          docText := [], summary := ⟨[], [], [], [], []⟩ })
      (by decide) (by decide) (by rfl)).2 (by decide)⟩

/-! ### Claim C8: the error taxonomy -/

/-- C8 (counterexample).  `SearchPage` with `limit = 0` returns the plain
`fmt.Errorf("limit must be positive")` error, which wraps none of the four
sentinel errors — so not every error returned by a registry operation
belongs to the {NotFound, InvalidTool, InvalidBackend, InvalidCursor}
taxonomy. -/
theorem C8_counterexample :
    (searchPage (sortSliceModel lessScore) (chs "") 0 .empty initialState).2
        = some (.error .limitNotPositive)
      ∧ listNamespacesPage 0 .empty initialState = some (.error .limitNotPositive)
      ∧ IndexError.limitNotPositive ≠ .notFound
      ∧ IndexError.limitNotPositive ≠ .invalidTool
      ∧ IndexError.limitNotPositive ≠ .invalidBackend
      ∧ IndexError.limitNotPositive ≠ .invalidCursor := by
  refine ⟨rfl, rfl, ?_, ?_, ?_, ?_⟩ <;> decide

/-- Errors from `paginateResults` are always `InvalidCursor`. -/
theorem paginate_error_invalidCursor {α : Type} (items : List α) (L : Int)
    (c : CursorStr) (chk : Nat) (e : IndexError)
    (h : paginateResults items L c chk = some (.error e)) : e = .invalidCursor := by
  simp only [paginateResults] at h
  rcases hdec : decodeCursor c with e' | token <;> simp only [hdec] at h
  · have : e' = .invalidCursor := by
      rcases c with _ | ⟨off, chk'⟩ | _ <;> simp only [decodeCursor] at hdec
      · simp at hdec
      · by_cases hoff : off < 0
        · rw [if_pos hoff] at hdec
          exact (Except.error.inj hdec).symm
        · rw [if_neg hoff] at hdec
          simp at hdec
      · exact (Except.error.inj hdec).symm
    simp only [Option.some_inj, Except.error.injEq] at h
    rw [← h, this]
  · by_cases h1 : c ≠ CursorStr.empty ∧ token.Checksum ≠ chk
    · rw [if_pos h1] at h
      simp only [Option.some_inj, Except.error.injEq] at h
      exact h.symm
    rw [if_neg h1] at h
    by_cases h2 : (items.length : Int) < token.Offset
    · rw [if_pos h2] at h; simp at h
    rw [if_neg h2] at h
    by_cases h3 : L < 0
    · rw [if_pos h3] at h; simp at h
    · rw [if_neg h3] at h; simp at h

/-- C8 (amended): every error returned by a registry operation belongs to
the four-sentinel taxonomy `{NotFound, InvalidTool, InvalidBackend,
InvalidCursor}` — with the one exception the counterexample exhibits:
`SearchPage` and `ListNamespacesPage` called with `limit ≤ 0` return the
plain "limit must be positive" error, which wraps no sentinel.  `Search`
and `ListNamespaces` always return a nil error in the source (the default
searcher's error result is constantly nil), so they contribute no error
cases. -/
theorem C8_error_taxonomy_amended (f : SortFn) :
    (∀ t b s e, (registerTool t b s).2 = some e
      → e = .invalidTool ∨ e = .invalidBackend)
    ∧ (∀ regs s e, (registerTools regs s).2 = some e
      → e = .invalidTool ∨ e = .invalidBackend)
    ∧ (∀ sn ts s e, (registerToolsFromMCP sn ts s).2 = some e
      → e = .invalidTool ∨ e = .invalidBackend)
    ∧ (∀ id k bid s e, (unregisterBackend id k bid s).2 = some e
      → e = .notFound ∨ e = .invalidBackend)
    ∧ (∀ id s e, getTool id s = .error e → e = .notFound)
    ∧ (∀ id s e, getAllBackends id s = .error e → e = .notFound)
    ∧ (∀ q L c s e, 0 < L → (searchPage f q L c s).2 = some (.error e)
      → e = .invalidCursor)
    ∧ (∀ q L c s, L ≤ 0
      → (searchPage f q L c s).2 = some (.error .limitNotPositive))
    ∧ (∀ L c s e, 0 < L → listNamespacesPage L c s = some (.error e)
      → e = .invalidCursor)
    ∧ (∀ L c s, L ≤ 0
      → listNamespacesPage L c s = some (.error .limitNotPositive)) := by
  have hreg : ∀ t b s e, (registerTool t b s).2 = some e
      → e = .invalidTool ∨ e = .invalidBackend := by
    intro t b s e h
    by_cases c1 : validateTool t
    · by_cases c2 : validateBackend b
      · rcases halk : alookup s.tools t.ToolID with _ | record
        · simp [registerTool, c1, c2, halk] at h
        · by_cases c4 : toolMCPFieldsEqual record.tool t
          · simp [registerTool, c1, c2, halk, c4] at h
          · simp only [registerTool, c1, c2, halk, c4, Bool.not_true,
              Bool.not_false, Bool.false_eq_true, if_false, if_true,
              Option.some_inj] at h
            exact Or.inl h.symm
      · simp only [registerTool, c1, c2, Bool.not_true, Bool.not_false,
          Bool.false_eq_true, if_false, if_true, Option.some_inj] at h
        exact Or.inr h.symm
    · simp only [registerTool, c1, Bool.not_false, if_true, Option.some_inj] at h
      exact Or.inl h.symm
  refine ⟨hreg, ?_, ?_, ?_, ?_, ?_, ?_, ?_, ?_, ?_⟩
  · intro regs
    induction regs with
    | nil => intro s e h; simp [registerTools] at h
    | cons reg rest ih =>
      intro s e h
      simp only [registerTools] at h
      rcases hr : registerTool reg.tool reg.backend s with ⟨s', r⟩
      rcases r with _ | e'
      · rw [hr] at h
        exact ih s' e h
      · rw [hr] at h
        simp only [Option.some_inj] at h
        subst h
        have := hreg reg.tool reg.backend s e'
        rw [hr] at this
        exact this rfl
  · intro sn ts
    induction ts with
    | nil => intro s e h; simp [registerToolsFromMCP] at h
    | cons tool rest ih =>
      intro s e h
      simp only [registerToolsFromMCP] at h
      rcases hr : registerTool tool ⟨.mcp, some ⟨sn⟩, none, none⟩ s with ⟨s', r⟩
      rcases r with _ | e'
      · rw [hr] at h
        exact ih s' e h
      · rw [hr] at h
        simp only [Option.some_inj] at h
        subst h
        have := hreg tool ⟨.mcp, some ⟨sn⟩, none, none⟩ s e'
        rw [hr] at this
        exact this rfl
  · intro id k bid s e h
    by_cases c1 : k = BackendKind.provider ∧ splitFirst ':' bid = none
    · simp only [unregisterBackend, if_pos c1, Option.some_inj] at h
      exact Or.inr h.symm
    by_cases c2 : k = BackendKind.provider ∧
        ∃ p, splitFirst ':' bid = some p ∧ (p.1 = [] ∨ p.2 = [])
    · simp only [unregisterBackend, if_neg c1, if_pos c2, Option.some_inj] at h
      exact Or.inr h.symm
    simp only [unregisterBackend, if_neg c1, if_neg c2] at h
    rcases halk : alookup s.tools id with _ | record
    · simp only [halk, Option.some_inj] at h
      exact Or.inl h.symm
    simp only [halk] at h
    rcases hfk : alookup record.backendKeys
        (unregisterSearchKey k bid (splitFirst ':' bid)) with _ | foundIdx
    · simp only [hfk, Option.some_inj] at h
      exact Or.inl h.symm
    simp only [hfk] at h
    by_cases c5 : (record.backends.eraseIdx foundIdx).length = 0 <;>
      simp [c5] at h
  · intro id s e h
    simp only [getTool] at h
    rcases halk : alookup s.tools id with _ | record <;> simp only [halk] at h
    · exact (Except.error.inj h).symm
    · exact absurd h (by simp)
  · intro id s e h
    simp only [getAllBackends] at h
    rcases halk : alookup s.tools id with _ | record <;> simp only [halk] at h
    · exact (Except.error.inj h).symm
    · exact absurd h (by simp)
  · intro q L c s e hL h
    have hL' : ¬ L ≤ 0 := by omega
    simp only [searchPage, hL', if_false] at h
    rcases hlex : lexicalSearch f q ((snapshotSearchDocs s).2.1.length : Int)
        (snapshotSearchDocs s).2.1 with _ | results <;> simp only [hlex] at h
    · simp at h
    · rcases hpag : paginateResults results L c (snapshotSearchDocs s).2.2
          with _ | e' <;> simp only [hpag] at h
      · simp at h
      · rcases e' with e' | pr
        · simp only [Option.some_inj, Except.error.injEq] at h
          rw [← h]
          exact paginate_error_invalidCursor _ _ _ _ _ hpag
        · simp at h
  · intro q L c s hL
    simp [searchPage, hL]
  · intro L c s e hL h
    have hL' : ¬ L ≤ 0 := by omega
    simp only [listNamespacesPage, hL', if_false] at h
    exact paginate_error_invalidCursor _ _ _ _ _ h
  · intro L c s hL
    simp [listNamespacesPage, hL]

/-- C8 (witness): the amended taxonomy theorem applied at concrete calls:
a failed lookup yields `NotFound`, and a malformed cursor presented to
`SearchPage` with a positive limit yields `InvalidCursor`. -/
theorem C8_witness :
    (IndexError.notFound = .notFound)
    ∧ (IndexError.invalidCursor = .invalidCursor) :=
  ⟨(C8_error_taxonomy_amended (sortSliceModel lessScore)).2.2.2.2.1
      (chs "missing:tool") initialState .notFound (by rfl),
   (C8_error_taxonomy_amended (sortSliceModel lessScore)).2.2.2.2.2.2.1
      (chs "") 1 .malformed initialState .invalidCursor (by decide) (by rfl)⟩

/-! ### Claim C10: the namespace-count invariant -/

theorem aupdate_absent {α : Type} {l : List (Str × α)} {k : Str} (v : α)
    (h : alookup l k = none) : aupdate l k v = l ++ [(k, v)] := by
  induction l with
  | nil => rfl
  | cons kv rest ih =>
    obtain ⟨k₀, v₀⟩ := kv
    by_cases h₀ : k₀ = k
    · subst h₀; simp [alookup] at h
    · simp only [alookup, if_neg h₀] at h
      simp [aupdate, h₀, ih h]

theorem alookup_none_not_mem {α : Type} {l : List (Str × α)} {k : Str}
    (h : alookup l k = none) : ∀ kv ∈ l, kv.1 ≠ k := by
  induction l with
  | nil => simp
  | cons kv₀ rest ih =>
    obtain ⟨k₀, v₀⟩ := kv₀
    by_cases h₀ : k₀ = k
    · subst h₀; simp [alookup] at h
    · simp only [alookup, if_neg h₀] at h
      intro kv hkv
      rcases List.mem_cons.mp hkv with rfl | hkv
      · exact h₀
      · exact ih h kv hkv

theorem mem_aupdate {α : Type} {l : List (Str × α)} {k : Str} {v : α} :
    ∀ kv ∈ aupdate l k v, kv = (k, v) ∨ kv ∈ l := by
  induction l with
  | nil => simp [aupdate]
  | cons kv₀ rest ih =>
    obtain ⟨k₀, v₀⟩ := kv₀
    intro kv hkv
    by_cases h₀ : k₀ = k
    · subst h₀
      simp only [aupdate, if_pos rfl] at hkv
      rcases List.mem_cons.mp hkv with rfl | hkv
      · exact Or.inl rfl
      · exact Or.inr (List.mem_cons_of_mem _ hkv)
    · simp only [aupdate, if_neg h₀] at hkv
      rcases List.mem_cons.mp hkv with rfl | hkv
      · exact Or.inr (List.mem_cons_self _ _)
      · rcases ih kv hkv with h | h
        · exact Or.inl h
        · exact Or.inr (List.mem_cons_of_mem _ h)

theorem pairwiseKeys_aupdate {α : Type} {l : List (Str × α)} {k : Str} {v : α}
    (h : l.Pairwise (fun a b => a.1 ≠ b.1)) :
    (aupdate l k v).Pairwise (fun a b => a.1 ≠ b.1) := by
  induction l with
  | nil => simp [aupdate]
  | cons kv₀ rest ih =>
    obtain ⟨k₀, v₀⟩ := kv₀
    rcases List.pairwise_cons.mp h with ⟨hhead, htail⟩
    by_cases h₀ : k₀ = k
    · subst h₀
      simp only [aupdate, if_pos rfl]
      exact List.pairwise_cons.mpr ⟨hhead, htail⟩
    · simp only [aupdate, if_neg h₀]
      refine List.pairwise_cons.mpr ⟨?_, ih htail⟩
      intro kv hkv
      rcases mem_aupdate kv hkv with rfl | hkv
      · exact h₀
      · exact hhead kv hkv

theorem aerase_sublist {α : Type} (l : List (Str × α)) (k : Str) :
    (aerase l k).Sublist l := by
  induction l with
  | nil => simp [aerase]
  | cons kv₀ rest ih =>
    obtain ⟨k₀, v₀⟩ := kv₀
    by_cases h₀ : k₀ = k
    · simp only [aerase, if_pos h₀]
      exact List.sublist_cons_self _ _
    · simp only [aerase, if_neg h₀]
      exact ih.cons₂ _

theorem pairwise_aerase {α : Type} {P : Str × α → Str × α → Prop}
    {l : List (Str × α)} {k : Str} (h : l.Pairwise P) :
    (aerase l k).Pairwise P :=
  h.sublist (aerase_sublist l k)

theorem mem_sinsert {l : List Str} {x y : Str} :
    x ∈ sinsert l y ↔ x = y ∨ x ∈ l := by
  by_cases h : y ∈ l
  · simp only [sinsert, if_pos h]
    constructor
    · exact Or.inr
    · rintro (rfl | hx)
      · exact h
      · exact hx
  · simp [sinsert, if_neg h, List.mem_cons]

theorem sinsert_nodup {l : List Str} {y : Str} (h : l.Nodup) :
    (sinsert l y).Nodup := by
  by_cases hy : y ∈ l
  · simpa [sinsert, hy] using h
  · simpa [sinsert, hy] using List.nodup_cons.mpr ⟨hy, h⟩

theorem countP_pos_of_mem {α : Type} {l : List α} {p : α → Bool} {x : α}
    (hx : x ∈ l) (hp : p x = true) : 0 < l.countP p :=
  List.countP_pos_iff.mpr ⟨x, hx, hp⟩

theorem countVal_nonneg (s : IndexState) (h : Inv s) (ns : Str) :
    0 ≤ countVal s ns := by
  rw [h.1 ns]; positivity

/-- Inserting a fresh record and bumping its namespace preserves the
invariant (the new-ID path of `RegisterTool`). -/
theorem Inv_insert_record (s : IndexState) (h : Inv s) (id : Str)
    (record : ToolRecord) (ns : Str) (habs : alookup s.tools id = none)
    (hwf : RecordWF record) (hns : record.tool.Namespace = ns) :
    Inv (markSearchDocsDirty
      (addNamespace { s with tools := aupdate s.tools id record } ns)) := by
  obtain ⟨h1, h2, h3, h4, h5, h6, h7⟩ := h
  have htools : (markSearchDocsDirty
      (addNamespace { s with tools := aupdate s.tools id record } ns)).tools
      = s.tools ++ [(id, record)] := by
    simp [markSearchDocsDirty, addNamespace, aupdate_absent record habs]
  have hcounts : (markSearchDocsDirty
      (addNamespace { s with tools := aupdate s.tools id record } ns)).namespaceCounts
      = aupdate s.namespaceCounts ns (countVal s ns + 1) := by
    simp [markSearchDocsDirty, addNamespace, countVal]
  have hnss : (markSearchDocsDirty
      (addNamespace { s with tools := aupdate s.tools id record } ns)).namespaces
      = sinsert s.namespaces ns := by
    simp [markSearchDocsDirty, addNamespace]
  have hrc : ∀ ns', recordCount (markSearchDocsDirty
      (addNamespace { s with tools := aupdate s.tools id record } ns)) ns'
      = recordCount s ns' + (if ns = ns' then 1 else 0) := by
    intro ns'
    simp only [recordCount, htools, List.countP_append, List.countP_cons,
      List.countP_nil, hns]
    by_cases hh : ns = ns' <;> simp [hh]
  have hcv : ∀ ns', countVal (markSearchDocsDirty
      (addNamespace { s with tools := aupdate s.tools id record } ns)) ns'
      = countVal s ns' + (if ns = ns' then 1 else 0) := by
    intro ns'
    simp only [countVal, hcounts]
    by_cases hh : ns' = ns
    · subst hh
      rw [alookup_aupdate_self]
      simp [countVal]
    · rw [alookup_aupdate_ne _ _ _ _ hh, if_neg (fun hx => hh hx.symm)]
      simp [countVal]
  refine ⟨?_, ?_, ?_, ?_, ?_, ?_, ?_⟩
  · intro ns'
    rw [hcv ns', hrc ns', h1 ns']
    by_cases hh : ns = ns' <;> simp [hh]
  · intro kv hkv
    rw [hcounts] at hkv
    rcases mem_aupdate kv hkv with rfl | hkv
    · have := countVal_nonneg s ⟨h1, h2, h3, h4, h5, h6, h7⟩ ns
      simp only
      omega
    · exact h2 kv hkv
  · intro ns'
    rw [hnss, hcv ns', mem_sinsert]
    have hnn := countVal_nonneg s ⟨h1, h2, h3, h4, h5, h6, h7⟩ ns'
    constructor
    · rintro (rfl | hmem)
      · rw [if_pos rfl]; omega
      · have hcmem := (h3 ns').mp hmem
        by_cases hh : ns = ns'
        · rw [if_pos hh]; omega
        · rw [if_neg hh]; omega
    · intro hpos
      by_cases hh : ns = ns'
      · exact Or.inl hh.symm
      · simp only [hh, if_false, add_zero] at hpos
        exact Or.inr ((h3 ns').mpr hpos)
  · rw [htools]
    rw [List.pairwise_append]
    refine ⟨h4, by simp, ?_⟩
    intro a ha b hb
    simp only [List.mem_singleton] at hb
    subst hb
    exact alookup_none_not_mem habs a ha
  · rw [hcounts]
    exact pairwiseKeys_aupdate h5
  · rw [hnss]
    exact sinsert_nodup h6
  · intro kv hkv
    rw [htools] at hkv
    rcases List.mem_append.mp hkv with hkv | hkv
    · exact h7 kv hkv
    · simp only [List.mem_singleton] at hkv
      subst hkv
      exact hwf

theorem mem_of_mem_aerase' {α : Type} {l : List (Str × α)} {k : Str}
    {kv : Str × α} (h : kv ∈ aerase l k) : kv ∈ l :=
  (aerase_sublist l k).subset h

theorem alookup_aerase_ne {α : Type} (l : List (Str × α)) (k k' : Str)
    (h : k' ≠ k) : alookup (aerase l k) k' = alookup l k' := by
  induction l with
  | nil => rfl
  | cons kv rest ih =>
    obtain ⟨k₀, v₀⟩ := kv
    simp only [aerase, alookup]
    by_cases h₀ : k₀ = k
    · rw [if_pos h₀, if_neg (fun hh => (h₀ ▸ h) hh.symm)]
    · rw [if_neg h₀]
      simp only [alookup]
      by_cases h₁ : k₀ = k'
      · rw [if_pos h₁, if_pos h₁]
      · rw [if_neg h₁, if_neg h₁, ih]

theorem alookup_none_of_forall {α : Type} {l : List (Str × α)} {k : Str}
    (h : ∀ kv ∈ l, kv.1 ≠ k) : alookup l k = none := by
  induction l with
  | nil => rfl
  | cons kv rest ih =>
    obtain ⟨k₀, v₀⟩ := kv
    simp only [alookup, if_neg (h (k₀, v₀) (List.mem_cons_self _ _))]
    exact ih (fun kv hkv => h kv (List.mem_cons_of_mem _ hkv))

theorem alookup_aerase_self {α : Type} {l : List (Str × α)} {k : Str}
    (hpw : l.Pairwise (fun a b => a.1 ≠ b.1)) :
    alookup (aerase l k) k = none := by
  induction l with
  | nil => rfl
  | cons kv rest ih =>
    obtain ⟨k₀, v₀⟩ := kv
    rcases List.pairwise_cons.mp hpw with ⟨hhead, htail⟩
    by_cases h₀ : k₀ = k
    · subst h₀
      simp only [aerase, if_pos rfl]
      exact alookup_none_of_forall (fun kv hkv => fun hh =>
        hhead kv hkv (hh ▸ rfl))
    · simp only [aerase, if_neg h₀, alookup, if_neg h₀]
      exact ih htail

/-- Deleting a record and releasing its namespace count preserves the
invariant (the last-backend path of `UnregisterBackend`). -/
theorem Inv_remove_record (s : IndexState) (h : Inv s) (id : Str)
    (r : ToolRecord) (hlk : alookup s.tools id = some r) :
    Inv (markSearchDocsDirty
      (removeNamespace { s with tools := aerase s.tools id } r.tool.Namespace)) := by
  obtain ⟨h1, h2, h3, h4, h5, h6, h7⟩ := h
  obtain ⟨l₁, l₂, hsplit, hl₁, -, hdel⟩ := alookup_decomp r hlk
  have hrceq : ∀ ns', (l₁ ++ l₂).countP
        (fun kv => decide (kv.2.tool.Namespace = ns'))
        + (if r.tool.Namespace = ns' then 1 else 0) = recordCount s ns' := by
    intro ns'
    rw [recordCount, hsplit]
    simp only [List.countP_append, List.countP_cons]
    by_cases hh : r.tool.Namespace = ns'
    · rw [if_pos hh]
      simp [hh]
      omega
    · rw [if_neg hh]
      simp [hh]
  have hrcpos : 0 < recordCount s r.tool.Namespace :=
    countP_pos_of_mem (mem_of_alookup hlk) (by simp)
  have hcvpos : 0 < countVal s r.tool.Namespace := by
    rw [h1]; exact_mod_cast hrcpos
  rcases hcnt : alookup s.namespaceCounts r.tool.Namespace with _ | c
  · exfalso
    simp [countVal, hcnt] at hcvpos
  have hc : c = countVal s r.tool.Namespace := by simp [countVal, hcnt]
  by_cases hcle : c ≤ 1
  · have hrc1 : recordCount s r.tool.Namespace = 1 := by
      have := h1 r.tool.Namespace
      omega
    have hstate : markSearchDocsDirty
        (removeNamespace { s with tools := aerase s.tools id } r.tool.Namespace)
        = markSearchDocsDirty { s with
            tools := l₁ ++ l₂,
            namespaceCounts := aerase s.namespaceCounts r.tool.Namespace,
            namespaces := s.namespaces.filter
              (fun x => decide (x ≠ r.tool.Namespace)) } := by
      simp only [removeNamespace, hcnt, if_pos hcle, hdel]
    rw [hstate]
    have hcv' : ∀ ns', countVal (markSearchDocsDirty { s with
        tools := l₁ ++ l₂,
        namespaceCounts := aerase s.namespaceCounts r.tool.Namespace,
        namespaces := s.namespaces.filter
          (fun x => decide (x ≠ r.tool.Namespace)) }) ns'
        = if ns' = r.tool.Namespace then 0 else countVal s ns' := by
      intro ns'
      by_cases hh : ns' = r.tool.Namespace
      · rw [if_pos hh, hh]
        simp only [countVal, markSearchDocsDirty]
        rw [alookup_aerase_self h5]
        rfl
      · rw [if_neg hh]
        simp only [countVal, markSearchDocsDirty]
        rw [alookup_aerase_ne _ _ _ hh]
    have hrc' : ∀ ns', recordCount (markSearchDocsDirty { s with
        tools := l₁ ++ l₂,
        namespaceCounts := aerase s.namespaceCounts r.tool.Namespace,
        namespaces := s.namespaces.filter
          (fun x => decide (x ≠ r.tool.Namespace)) }) ns'
        + (if r.tool.Namespace = ns' then 1 else 0) = recordCount s ns' :=
      hrceq
    refine ⟨?_, ?_, ?_, ?_, ?_, ?_, ?_⟩
    · intro ns'
      rw [hcv' ns']
      have := hrc' ns'
      by_cases hh : ns' = r.tool.Namespace
      · rw [if_pos hh]
        rw [hh] at this ⊢
        rw [if_pos rfl] at this
        rw [hrc1] at this
        omega
      · rw [if_neg hh]
        rw [if_neg (fun hx => hh hx.symm), add_zero] at this
        rw [h1 ns', this]
    · intro kv hkv
      exact h2 kv (mem_of_mem_aerase' hkv)
    · intro ns'
      rw [hcv' ns']
      simp only [markSearchDocsDirty, List.mem_filter, decide_eq_true_eq]
      by_cases hh : ns' = r.tool.Namespace
      · rw [if_pos hh]
        simp [hh]
      · rw [if_neg hh]
        rw [← h3 ns']
        simp [hh]
    · simp only [markSearchDocsDirty]
      rw [hsplit] at h4
      exact h4.sublist
        (List.Sublist.append_left (List.sublist_cons_self _ _) l₁)
    · exact pairwise_aerase h5
    · exact h6.filter _
    · intro kv hkv
      simp only [markSearchDocsDirty] at hkv
      rw [hsplit] at h7
      exact h7 kv ((List.Sublist.append_left (List.sublist_cons_self _ _) l₁).subset hkv)
  · have hstate : markSearchDocsDirty
        (removeNamespace { s with tools := aerase s.tools id } r.tool.Namespace)
        = markSearchDocsDirty { s with
            tools := l₁ ++ l₂,
            namespaceCounts := aupdate s.namespaceCounts r.tool.Namespace (c - 1) } := by
      simp only [removeNamespace, hcnt, if_neg hcle, hdel]
    rw [hstate]
    have hcv' : ∀ ns', countVal (markSearchDocsDirty { s with
        tools := l₁ ++ l₂,
        namespaceCounts := aupdate s.namespaceCounts r.tool.Namespace (c - 1) }) ns'
        = if ns' = r.tool.Namespace then c - 1 else countVal s ns' := by
      intro ns'
      by_cases hh : ns' = r.tool.Namespace
      · rw [if_pos hh, hh]
        simp only [countVal, markSearchDocsDirty]
        rw [alookup_aupdate_self]
        rfl
      · rw [if_neg hh]
        simp only [countVal, markSearchDocsDirty]
        rw [alookup_aupdate_ne _ _ _ _ hh]
    refine ⟨?_, ?_, ?_, ?_, ?_, ?_, ?_⟩
    · intro ns'
      rw [hcv' ns']
      have := hrceq ns'
      by_cases hh : ns' = r.tool.Namespace
      · rw [if_pos hh]
        rw [hh] at this ⊢
        rw [if_pos rfl] at this
        have hceq : c = (recordCount s r.tool.Namespace : Int) := by
          rw [hc, h1]
        simp only [recordCount, markSearchDocsDirty] at this hceq ⊢
        omega
      · rw [if_neg hh]
        rw [if_neg (fun hx => hh hx.symm), add_zero] at this
        rw [h1 ns']
        simp only [recordCount, markSearchDocsDirty] at this ⊢
        omega
    · intro kv hkv
      rcases mem_aupdate kv hkv with rfl | hkv
      · simp only
        omega
      · exact h2 kv hkv
    · intro ns'
      rw [hcv' ns']
      simp only [markSearchDocsDirty]
      rw [h3 ns']
      by_cases hh : ns' = r.tool.Namespace
      · rw [if_pos hh, hh, hc]
        constructor <;> intro <;> omega
      · rw [if_neg hh]
    · rw [markSearchDocsDirty]
      simp only
      rw [hsplit] at h4
      exact h4.sublist
        (List.Sublist.append_left (List.sublist_cons_self _ _) l₁)
    · exact pairwiseKeys_aupdate h5
    · exact h6
    · intro kv hkv
      simp only [markSearchDocsDirty] at hkv
      rw [hsplit] at h7
      exact h7 kv ((List.Sublist.append_left (List.sublist_cons_self _ _) l₁).subset hkv)

theorem pairwise_keys_iff {α : Type} (l : List (Str × α)) :
    l.Pairwise (fun a b => a.1 ≠ b.1) ↔ (l.map Prod.fst).Nodup := by
  simp [List.Nodup, List.pairwise_map]

theorem tools_removeNamespace (s : IndexState) (ns : Str) :
    (removeNamespace s ns).tools = s.tools := by
  unfold removeNamespace
  split
  · rfl
  · split <;> rfl

/-- Replacing the record stored at an existing key by one with the same
namespace preserves the invariant (the update paths of `RegisterTool` with
unchanged namespace, and the partial-remove path of `UnregisterBackend`). -/
theorem Inv_replace_same_ns (s : IndexState) (h : Inv s) (id : Str)
    (r r' : ToolRecord) (hlk : alookup s.tools id = some r)
    (hwf' : RecordWF r') (hns : r'.tool.Namespace = r.tool.Namespace) :
    Inv (markSearchDocsDirty { s with tools := aupdate s.tools id r' }) := by
  obtain ⟨h1, h2, h3, h4, h5, h6, h7⟩ := h
  obtain ⟨l₁, l₂, hsplit, hl₁, hupd, -⟩ := alookup_decomp r' hlk
  have htools : (markSearchDocsDirty
      { s with tools := aupdate s.tools id r' }).tools = l₁ ++ (id, r') :: l₂ := hupd
  have hrc : ∀ ns, recordCount (markSearchDocsDirty
      { s with tools := aupdate s.tools id r' }) ns = recordCount s ns := by
    intro ns
    simp only [recordCount]
    rw [htools, hsplit]
    simp only [List.countP_append, List.countP_cons, hns]
  refine ⟨?_, h2, h3, ?_, h5, h6, ?_⟩
  · intro ns
    rw [hrc ns]
    exact h1 ns
  · rw [htools, pairwise_keys_iff]
    rw [hsplit, pairwise_keys_iff] at h4
    simpa using h4
  · intro kv hkv
    rw [htools] at hkv
    rcases List.mem_append.mp hkv with hkv | hkv
    · exact h7 kv (hsplit.symm ▸ List.mem_append_left _ hkv)
    · rcases List.mem_cons.mp hkv with rfl | hkv
      · exact hwf'
      · exact h7 kv (hsplit.symm ▸ List.mem_append_right _ (List.mem_cons_of_mem _ hkv))

/-- Replacing the record stored at an existing key by one with a different
namespace, after decrementing the old namespace and incrementing the new
one, preserves the invariant (the namespace-change update path of
`RegisterTool`). -/
theorem Inv_replace_change_ns (s : IndexState) (h : Inv s) (id : Str)
    (r r' : ToolRecord) (hlk : alookup s.tools id = some r)
    (hwf' : RecordWF r') (hne : r.tool.Namespace ≠ r'.tool.Namespace) :
    Inv (markSearchDocsDirty
      { addNamespace (removeNamespace s r.tool.Namespace) r'.tool.Namespace with
        tools := aupdate
          (addNamespace (removeNamespace s r.tool.Namespace) r'.tool.Namespace).tools
          id r' }) := by
  obtain ⟨h1, h2, h3, h4, h5, h6, h7⟩ := h
  obtain ⟨l₁, l₂, hsplit, hl₁, hupd, -⟩ := alookup_decomp r' hlk
  have hnewold : r'.tool.Namespace ≠ r.tool.Namespace := fun hx => hne hx.symm
  have hrc0 : 0 < recordCount s r.tool.Namespace :=
    countP_pos_of_mem (mem_of_alookup hlk) (by simp)
  rcases hcnt : alookup s.namespaceCounts r.tool.Namespace with _ | c
  · exfalso
    have h1' := h1 r.tool.Namespace
    simp [countVal, hcnt] at h1'
    omega
  have hc : c = countVal s r.tool.Namespace := by simp [countVal, hcnt]
  have hcpos : 0 < c := h2 _ (mem_of_alookup hcnt)
  have hpw4 : (l₁ ++ (id, r') :: l₂).Pairwise (fun a b => a.1 ≠ b.1) := by
    rw [pairwise_keys_iff]
    rw [hsplit, pairwise_keys_iff] at h4
    simpa using h4
  have hwf7 : ∀ kv ∈ l₁ ++ (id, r') :: l₂, RecordWF kv.2 := by
    intro kv hkv
    rcases List.mem_append.mp hkv with hkv | hkv
    · exact h7 kv (hsplit.symm ▸ List.mem_append_left _ hkv)
    · rcases List.mem_cons.mp hkv with rfl | hkv
      · exact hwf'
      · exact h7 kv (hsplit.symm ▸ List.mem_append_right _ (List.mem_cons_of_mem _ hkv))
  have hrcd : ∀ ns, (l₁ ++ (id, r') :: l₂).countP
        (fun kv => decide (kv.2.tool.Namespace = ns))
        + (if r.tool.Namespace = ns then 1 else 0)
      = recordCount s ns + (if r'.tool.Namespace = ns then 1 else 0) := by
    intro ns
    rw [recordCount, hsplit]
    simp only [List.countP_append, List.countP_cons]
    by_cases h₁ : r.tool.Namespace = ns <;> by_cases h₂ : r'.tool.Namespace = ns <;>
      simp [h₁, h₂] <;> omega
  by_cases hcle : c ≤ 1
  · have hstate : markSearchDocsDirty
        { addNamespace (removeNamespace s r.tool.Namespace) r'.tool.Namespace with
          tools := aupdate
            (addNamespace (removeNamespace s r.tool.Namespace) r'.tool.Namespace).tools
            id r' }
        = markSearchDocsDirty { s with
            tools := l₁ ++ (id, r') :: l₂,
            namespaceCounts := aupdate (aerase s.namespaceCounts r.tool.Namespace)
              r'.tool.Namespace (countVal s r'.tool.Namespace + 1),
            namespaces := sinsert
              (s.namespaces.filter (fun x => decide (x ≠ r.tool.Namespace)))
              r'.tool.Namespace } := by
      simp only [addNamespace, removeNamespace, hcnt, if_pos hcle, hupd, countVal,
        alookup_aerase_ne s.namespaceCounts r.tool.Namespace r'.tool.Namespace hnewold]
    rw [hstate]
    have hcv : ∀ ns, countVal (markSearchDocsDirty { s with
          tools := l₁ ++ (id, r') :: l₂,
          namespaceCounts := aupdate (aerase s.namespaceCounts r.tool.Namespace)
            r'.tool.Namespace (countVal s r'.tool.Namespace + 1),
          namespaces := sinsert
            (s.namespaces.filter (fun x => decide (x ≠ r.tool.Namespace)))
            r'.tool.Namespace }) ns
        = if ns = r'.tool.Namespace then countVal s r'.tool.Namespace + 1
          else if ns = r.tool.Namespace then 0 else countVal s ns := by
      intro ns
      by_cases hn' : ns = r'.tool.Namespace
      · rw [if_pos hn', hn']
        simp only [countVal, markSearchDocsDirty]
        rw [alookup_aupdate_self]
        rfl
      · rw [if_neg hn']
        simp only [countVal, markSearchDocsDirty]
        rw [alookup_aupdate_ne _ _ _ _ hn']
        by_cases ho : ns = r.tool.Namespace
        · rw [if_pos ho, ho, alookup_aerase_self h5]
          rfl
        · rw [if_neg ho, alookup_aerase_ne _ _ _ ho]
    refine ⟨?_, ?_, ?_, ?_, ?_, ?_, ?_⟩
    · intro ns
      rw [hcv ns]
      have hd := hrcd ns
      simp only [recordCount, markSearchDocsDirty]
      by_cases hn' : ns = r'.tool.Namespace
      · rw [if_pos hn']
        subst hn'
        rw [if_neg hne, if_pos rfl] at hd
        have h1' := h1 r'.tool.Namespace
        omega
      · rw [if_neg hn']
        by_cases ho : ns = r.tool.Namespace
        · rw [if_pos ho]
          subst ho
          rw [if_pos rfl, if_neg (fun hx => hne hx.symm)] at hd
          have h1' := h1 r.tool.Namespace
          omega
        · rw [if_neg ho]
          rw [if_neg (fun hx => ho hx.symm), if_neg (fun hx => hn' hx.symm)] at hd
          rw [h1 ns]
          omega
    · intro kv hkv
      simp only [markSearchDocsDirty] at hkv
      rcases mem_aupdate kv hkv with rfl | hkv
      · have h1' := h1 r'.tool.Namespace
        have hnn : (0:Int) ≤ countVal s r'.tool.Namespace := by rw [h1']; positivity
        show (0:Int) < countVal s r'.tool.Namespace + 1
        omega
      · exact h2 kv (mem_of_mem_aerase' hkv)
    · intro ns
      rw [hcv ns]
      simp only [markSearchDocsDirty]
      rw [mem_sinsert]
      simp only [List.mem_filter, decide_eq_true_eq]
      by_cases hn' : ns = r'.tool.Namespace
      · rw [if_pos hn']
        have h1' := h1 r'.tool.Namespace
        have hnn : (0:Int) ≤ countVal s r'.tool.Namespace := by rw [h1']; positivity
        constructor
        · intro _
          omega
        · intro _
          exact Or.inl hn'
      · rw [if_neg hn']
        by_cases ho : ns = r.tool.Namespace
        · rw [if_pos ho]
          constructor
          · rintro (hx | ⟨-, hnx⟩)
            · exact absurd hx hn'
            · exact absurd ho hnx
          · intro hx
            exact absurd hx (lt_irrefl 0)
        · rw [if_neg ho]
          rw [← h3 ns]
          constructor
          · rintro (hx | ⟨hmem, -⟩)
            · exact absurd hx hn'
            · exact hmem
          · intro hmem
            exact Or.inr ⟨hmem, ho⟩
    · simp only [markSearchDocsDirty]
      exact hpw4
    · simp only [markSearchDocsDirty]
      exact pairwiseKeys_aupdate (pairwise_aerase h5)
    · simp only [markSearchDocsDirty]
      exact sinsert_nodup (h6.filter _)
    · intro kv hkv
      simp only [markSearchDocsDirty] at hkv
      exact hwf7 kv hkv
  · have hstate : markSearchDocsDirty
        { addNamespace (removeNamespace s r.tool.Namespace) r'.tool.Namespace with
          tools := aupdate
            (addNamespace (removeNamespace s r.tool.Namespace) r'.tool.Namespace).tools
            id r' }
        = markSearchDocsDirty { s with
            tools := l₁ ++ (id, r') :: l₂,
            namespaceCounts := aupdate
              (aupdate s.namespaceCounts r.tool.Namespace (c - 1))
              r'.tool.Namespace (countVal s r'.tool.Namespace + 1),
            namespaces := sinsert s.namespaces r'.tool.Namespace } := by
      simp only [addNamespace, removeNamespace, hcnt, if_neg hcle, hupd, countVal,
        alookup_aupdate_ne s.namespaceCounts r.tool.Namespace r'.tool.Namespace
          (c - 1) hnewold]
    rw [hstate]
    have hcv : ∀ ns, countVal (markSearchDocsDirty { s with
          tools := l₁ ++ (id, r') :: l₂,
          namespaceCounts := aupdate
            (aupdate s.namespaceCounts r.tool.Namespace (c - 1))
            r'.tool.Namespace (countVal s r'.tool.Namespace + 1),
          namespaces := sinsert s.namespaces r'.tool.Namespace }) ns
        = if ns = r'.tool.Namespace then countVal s r'.tool.Namespace + 1
          else if ns = r.tool.Namespace then c - 1 else countVal s ns := by
      intro ns
      by_cases hn' : ns = r'.tool.Namespace
      · rw [if_pos hn', hn']
        simp only [countVal, markSearchDocsDirty]
        rw [alookup_aupdate_self]
        rfl
      · rw [if_neg hn']
        simp only [countVal, markSearchDocsDirty]
        rw [alookup_aupdate_ne _ _ _ _ hn']
        by_cases ho : ns = r.tool.Namespace
        · rw [if_pos ho, ho, alookup_aupdate_self]
          rfl
        · rw [if_neg ho, alookup_aupdate_ne _ _ _ _ ho]
    refine ⟨?_, ?_, ?_, ?_, ?_, ?_, ?_⟩
    · intro ns
      rw [hcv ns]
      have hd := hrcd ns
      simp only [recordCount, markSearchDocsDirty]
      by_cases hn' : ns = r'.tool.Namespace
      · rw [if_pos hn']
        subst hn'
        rw [if_neg hne, if_pos rfl] at hd
        have h1' := h1 r'.tool.Namespace
        omega
      · rw [if_neg hn']
        by_cases ho : ns = r.tool.Namespace
        · rw [if_pos ho]
          subst ho
          rw [if_pos rfl, if_neg (fun hx => hne hx.symm)] at hd
          have h1' := h1 r.tool.Namespace
          omega
        · rw [if_neg ho]
          rw [if_neg (fun hx => ho hx.symm), if_neg (fun hx => hn' hx.symm)] at hd
          rw [h1 ns]
          omega
    · intro kv hkv
      simp only [markSearchDocsDirty] at hkv
      rcases mem_aupdate kv hkv with rfl | hkv
      · have h1' := h1 r'.tool.Namespace
        have hnn : (0:Int) ≤ countVal s r'.tool.Namespace := by rw [h1']; positivity
        show (0:Int) < countVal s r'.tool.Namespace + 1
        omega
      · rcases mem_aupdate kv hkv with rfl | hkv
        · show (0:Int) < c - 1
          omega
        · exact h2 kv hkv
    · intro ns
      rw [hcv ns]
      simp only [markSearchDocsDirty]
      rw [mem_sinsert]
      by_cases hn' : ns = r'.tool.Namespace
      · rw [if_pos hn']
        have h1' := h1 r'.tool.Namespace
        have hnn : (0:Int) ≤ countVal s r'.tool.Namespace := by rw [h1']; positivity
        constructor
        · intro _
          omega
        · intro _
          exact Or.inl hn'
      · rw [if_neg hn']
        by_cases ho : ns = r.tool.Namespace
        · rw [if_pos ho]
          constructor
          · intro _
            omega
          · intro _
            exact Or.inr ((h3 ns).mpr (by rw [ho, ← hc]; omega))
        · rw [if_neg ho]
          rw [← h3 ns]
          constructor
          · rintro (hx | hmem)
            · exact absurd hx hn'
            · exact hmem
          · intro hmem
            exact Or.inr hmem
    · simp only [markSearchDocsDirty]
      exact hpw4
    · simp only [markSearchDocsDirty]
      exact pairwiseKeys_aupdate (pairwiseKeys_aupdate h5)
    · simp only [markSearchDocsDirty]
      exact sinsert_nodup h6
    · intro kv hkv
      simp only [markSearchDocsDirty] at hkv
      exact hwf7 kv hkv

/-- Overwriting the backend at a stored index keeps the record well formed
(the existing-key branch of `RegisterTool`). -/
theorem RecordWF_set (r : ToolRecord) (hwf : RecordWF r) (i : Nat)
    (b : ToolBackend) : RecordWF { r with backends := r.backends.set i b } := by
  obtain ⟨w1, w2, w3⟩ := hwf
  refine ⟨?_, w2, w3⟩
  intro kv hkv
  simpa [List.length_set] using w1 kv hkv

/-- Appending a backend under a fresh identity key keeps the record well
formed (the new-key branch of `RegisterTool`). -/
theorem RecordWF_append (r : ToolRecord) (hwf : RecordWF r) (key : Str)
    (b : ToolBackend) (habs : alookup r.backendKeys key = none) :
    RecordWF { r with
      backendKeys := aupdate r.backendKeys key r.backends.length,
      backends := r.backends ++ [b] } := by
  obtain ⟨w1, w2, w3⟩ := hwf
  have hupd := aupdate_absent (l := r.backendKeys) r.backends.length habs
  refine ⟨?_, pairwiseKeys_aupdate w2, ?_⟩
  · intro kv hkv
    simp only [hupd, List.mem_append, List.mem_singleton] at hkv
    simp only [List.length_append, List.length_singleton]
    rcases hkv with hkv | rfl
    · have := w1 kv hkv
      omega
    · show r.backends.length < r.backends.length + 1
      omega
  · have hall : (r.backendKeys ++ [(key, r.backends.length)]).Pairwise
        (fun a b => a.2 ≠ b.2) := by
      rw [List.pairwise_append]
      refine ⟨w3, by simp, ?_⟩
      intro a ha b hb
      simp only [List.mem_singleton] at hb
      subst hb
      have := w1 a ha
      show a.2 ≠ r.backends.length
      omega
    simpa [hupd] using hall

/-- Removing the backend at a found index and compacting the stored indices
keeps the record well formed (the partial-remove path of
`UnregisterBackend`). -/
theorem RecordWF_erase (r : ToolRecord) (hwf : RecordWF r) (skey : Str)
    (i : Nat) (hfound : alookup r.backendKeys skey = some i) :
    RecordWF { r with
      backendKeys := (aerase r.backendKeys skey).map
        (fun kv => if i < kv.2 then (kv.1, kv.2 - 1) else kv),
      backends := r.backends.eraseIdx i } := by
  obtain ⟨w1, w2, w3⟩ := hwf
  have hi : i < r.backends.length := w1 _ (mem_of_alookup hfound)
  have hlen : (r.backends.eraseIdx i).length = r.backends.length - 1 := by
    rw [List.length_eraseIdx]
    simp [hi]
  obtain ⟨k₁, k₂, hks, hk₁, -, hkdel⟩ := alookup_decomp i hfound
  have hmem2 : ∀ kv ∈ aerase r.backendKeys skey,
      kv.2 ≠ i ∧ kv.2 < r.backends.length := by
    intro kv hkv
    refine ⟨?_, w1 kv (mem_of_mem_aerase' hkv)⟩
    rw [hks, List.pairwise_append] at w3
    obtain ⟨p1, p2, pc⟩ := w3
    rw [hkdel] at hkv
    rcases List.mem_append.mp hkv with hkv | hkv
    · exact pc kv hkv (skey, i) (List.mem_cons_self _ _)
    · have hh := (List.pairwise_cons.mp p2).1 kv hkv
      exact fun hx => hh hx.symm
  refine ⟨?_, ?_, ?_⟩
  · intro kv hkv
    simp only [List.mem_map] at hkv
    obtain ⟨kv₀, hkv₀, rfl⟩ := hkv
    obtain ⟨hne_i, hlt⟩ := hmem2 kv₀ hkv₀
    simp only [hlen]
    by_cases hgt : i < kv₀.2
    · rw [if_pos hgt]
      show kv₀.2 - 1 < r.backends.length - 1
      omega
    · rw [if_neg hgt]
      show kv₀.2 < r.backends.length - 1
      omega
  · rw [List.pairwise_map]
    have hf : ∀ x : Str × Nat,
        (if i < x.2 then (x.1, x.2 - 1) else x).1 = x.1 := by
      intro x
      by_cases hx : i < x.2 <;> simp [hx]
    refine (pairwise_aerase w2).imp ?_
    intro a b hab
    show (if i < a.2 then (a.1, a.2 - 1) else a).1
        ≠ (if i < b.2 then (b.1, b.2 - 1) else b).1
    simp only [hf]
    exact hab
  · rw [List.pairwise_map]
    refine List.Pairwise.imp_of_mem ?_ (pairwise_aerase w3)
    intro a b ha hb hab
    obtain ⟨hai, halt⟩ := hmem2 a ha
    obtain ⟨hbi, hblt⟩ := hmem2 b hb
    show (if i < a.2 then (a.1, a.2 - 1) else a).2
        ≠ (if i < b.2 then (b.1, b.2 - 1) else b).2
    by_cases hxa : i < a.2
    · by_cases hxb : i < b.2
      · rw [if_pos hxa, if_pos hxb]
        show a.2 - 1 ≠ b.2 - 1
        omega
      · rw [if_pos hxa, if_neg hxb]
        show a.2 - 1 ≠ b.2
        omega
    · by_cases hxb : i < b.2
      · rw [if_neg hxa, if_pos hxb]
        show a.2 ≠ b.2 - 1
        omega
      · rw [if_neg hxa, if_neg hxb]
        exact hab

/-- `RegisterTool` preserves the registry invariant on every path. -/
theorem Inv_registerTool (t : Tool) (b : ToolBackend) (s : IndexState)
    (h : Inv s) : Inv (registerTool t b s).1 := by
  rw [registerTool]
  split
  · exact h
  split
  · exact h
  rcases hlk : alookup s.tools t.ToolID with _ | record
  · simp only [hlk]
    exact Inv_insert_record s h t.ToolID _ t.Namespace hlk
      (by simp [RecordWF, refreshRecordDerived]) rfl
  · simp only [hlk]
    split
    · exact h
    · have hwf : RecordWF record := h.2.2.2.2.2.2 _ (mem_of_alookup hlk)
      split
      next hns =>
        split
        next existingIdx hbk =>
          exact Inv_replace_change_ns s h t.ToolID record _ hlk
            (RecordWF_set _ hwf existingIdx b) hns
        next hbk =>
          exact Inv_replace_change_ns s h t.ToolID record _ hlk
            (RecordWF_append _ hwf (backendIdentity b) b hbk) hns
      next hns =>
        have hns' : t.Namespace = record.tool.Namespace := (not_ne_iff.mp hns).symm
        split
        next existingIdx hbk =>
          exact Inv_replace_same_ns s h t.ToolID record _ hlk
            (RecordWF_set _ hwf existingIdx b) hns'
        next hbk =>
          exact Inv_replace_same_ns s h t.ToolID record _ hlk
            (RecordWF_append _ hwf (backendIdentity b) b hbk) hns'

/-- `UnregisterBackend` preserves the registry invariant on every path. -/
theorem Inv_unregisterBackend (id : Str) (k : BackendKind) (bid : Str)
    (s : IndexState) (h : Inv s) : Inv (unregisterBackend id k bid s).1 := by
  rw [unregisterBackend]
  split
  · exact h
  · split
    · exact h
    · split
      · exact h
      · rename_i record hrec
        split
        · exact h
        · rename_i foundIdx hfound
          dsimp only
          split
          · exact Inv_remove_record s h id record hrec
          · exact Inv_replace_same_ns s h id record _ hrec
              (RecordWF_erase record (h.2.2.2.2.2.2 _ (mem_of_alookup hrec))
                _ foundIdx hfound) rfl

/-- `Refresh` only touches the search-doc cache, so it preserves the
registry invariant. -/
theorem Inv_refresh (s : IndexState) (h : Inv s) : Inv (refresh s).1 := h

/-- Every state reachable through the public mutation API satisfies the
registry invariant. -/
theorem Reach_Inv (s : IndexState) (h : Reach s) : Inv s := by
  induction h with
  | init =>
    refine ⟨?_, ?_, ?_, ?_, ?_, ?_, ?_⟩ <;>
      simp [initialState, countVal, recordCount, alookup]
  | reg t b s hs ih => exact Inv_registerTool t b s ih
  | unreg id k bid s hs ih => exact Inv_unregisterBackend id k bid s ih
  | refreshStep s hs ih => exact Inv_refresh s ih

/-- C10.  In every state reachable from a fresh index by any sequence of
`RegisterTool`, `UnregisterBackend` and `Refresh` calls, for every
namespace: the stored count equals the number of tool records with that
namespace, no stored count is zero or negative, and a namespace is in the
namespace set iff its count is positive — so `ListNamespaces` lists exactly
the namespaces of currently registered tools. -/
theorem C10_registry_invariant (s : IndexState) (h : Reach s) :
    (∀ ns, countVal s ns = (recordCount s ns : Int))
    ∧ (∀ kv ∈ s.namespaceCounts, 0 < kv.2)
    ∧ (∀ ns, ns ∈ s.namespaces ↔ 0 < countVal s ns)
    ∧ (∀ ns, ns ∈ listNamespaces s
        ↔ ∃ kv ∈ s.tools, kv.2.tool.Namespace = ns) := by
  obtain ⟨h1, h2, h3, h4, h5, h6, h7⟩ := Reach_Inv s h
  refine ⟨h1, h2, h3, ?_⟩
  intro ns
  rw [listNamespaces, mem_sortSliceModel, h3 ns, h1 ns, recordCount]
  constructor
  · intro hpos
    have hpos' : 0 < s.tools.countP
        (fun kv => decide (kv.2.tool.Namespace = ns)) := by
      exact_mod_cast hpos
    obtain ⟨kv, hkv, hp⟩ := List.countP_pos_iff.mp hpos'
    exact ⟨kv, hkv, by simpa using hp⟩
  · rintro ⟨kv, hkv, hns⟩
    have hpos' : 0 < s.tools.countP
        (fun kv => decide (kv.2.tool.Namespace = ns)) :=
      countP_pos_of_mem hkv (by simpa using hns)
    exact_mod_cast hpos'

/-- C10 (witness): the invariant applied to a concrete state reached by
three registrations, at the namespace they share. -/
theorem C10_witness :
    countVal demoState (chs "ns") = (recordCount demoState (chs "ns") : Int)
    ∧ (chs "ns" ∈ listNamespaces demoState
        ↔ ∃ kv ∈ demoState.tools, kv.2.tool.Namespace = chs "ns") := by
  have h := C10_registry_invariant demoState
    (Reach.reg _ _ _ (Reach.reg _ _ _ (Reach.reg _ _ _ Reach.init)))
  exact ⟨h.1 _, h.2.2.2 _⟩

/-- On the success path that removes the last backend, `UnregisterBackend`
produces exactly the delete-record state. -/
theorem unregister_last_state (s : IndexState) (id : Str) (r : ToolRecord)
    (k : BackendKind) (bid : Str) (hlk : alookup s.tools id = some r)
    (hone : r.backends.length = 1) (hwfr : RecordWF r)
    (hsucc : (unregisterBackend id k bid s).2 = none) :
    (unregisterBackend id k bid s).1
      = markSearchDocsDirty
          (removeNamespace { s with tools := aerase s.tools id }
            r.tool.Namespace) := by
  rw [unregisterBackend] at hsucc ⊢
  by_cases c1 : k = BackendKind.provider ∧ splitFirst ':' bid = none
  · rw [if_pos c1] at hsucc
    simp at hsucc
  rw [if_neg c1] at hsucc ⊢
  by_cases c2 : k = BackendKind.provider
      ∧ ∃ p, splitFirst ':' bid = some p ∧ (p.1 = [] ∨ p.2 = [])
  · rw [if_pos c2] at hsucc
    simp at hsucc
  rw [if_neg c2] at hsucc ⊢
  rcases hfound : alookup r.backendKeys
      (unregisterSearchKey k bid (splitFirst ':' bid)) with _ | foundIdx
  · simp only [hlk, hfound] at hsucc
    simp at hsucc
  · simp only [hlk, hfound] at hsucc ⊢
    have hflt : foundIdx < r.backends.length := hwfr.1 _ (mem_of_alookup hfound)
    have hlen0 : (r.backends.eraseIdx foundIdx).length = 0 := by
      rw [List.length_eraseIdx, if_pos hflt, hone]
    rw [if_pos hlen0]

/-- C6.  For every reachable state, a registered tool ID whose record holds
exactly one backend, and a successful `UnregisterBackend` call for it: the
record is deleted — `GetTool` and `GetAllBackends` both return `NotFound`
afterwards — and the tool's namespace remains in `ListNamespaces` iff some
other registered tool uses that namespace (equivalently, it is removed iff
no other tool shares it). -/
theorem C6_unregister_last_backend (s : IndexState) (hreach : Reach s)
    (id : Str) (r : ToolRecord) (k : BackendKind) (bid : Str)
    (hlk : alookup s.tools id = some r) (hone : r.backends.length = 1)
    (hsucc : (unregisterBackend id k bid s).2 = none) :
    getTool id (unregisterBackend id k bid s).1 = .error .notFound
    ∧ getAllBackends id (unregisterBackend id k bid s).1 = .error .notFound
    ∧ (r.tool.Namespace ∈ listNamespaces (unregisterBackend id k bid s).1
        ↔ ∃ kv ∈ s.tools, kv.1 ≠ id
            ∧ kv.2.tool.Namespace = r.tool.Namespace) := by
  obtain ⟨h1, h2, h3, h4, h5, h6, h7⟩ := Reach_Inv s hreach
  have hwfr : RecordWF r := h7 _ (mem_of_alookup hlk)
  have hst := unregister_last_state s id r k bid hlk hone hwfr hsucc
  rw [hst]
  have htool : (markSearchDocsDirty
      (removeNamespace { s with tools := aerase s.tools id }
        r.tool.Namespace)).tools = aerase s.tools id :=
    tools_removeNamespace { s with tools := aerase s.tools id } r.tool.Namespace
  have hnone : alookup (markSearchDocsDirty
      (removeNamespace { s with tools := aerase s.tools id }
        r.tool.Namespace)).tools id = none := by
    rw [htool]
    exact alookup_aerase_self h4
  refine ⟨?_, ?_, ?_⟩
  · simp only [getTool, hnone]
  · simp only [getAllBackends, hnone]
  · obtain ⟨g1, g2, g3, g4, g5, g6, g7⟩ :=
      Inv_remove_record s ⟨h1, h2, h3, h4, h5, h6, h7⟩ id r hlk
    rw [listNamespaces, mem_sortSliceModel, g3 _, g1 _, recordCount, htool]
    obtain ⟨l₁, l₂, hsplit, hl₁, -, hdel⟩ := alookup_decomp r hlk
    constructor
    · intro hpos
      have hpos' : 0 < (aerase s.tools id).countP
          (fun kv => decide (kv.2.tool.Namespace = r.tool.Namespace)) := by
        exact_mod_cast hpos
      obtain ⟨kv, hkv, hp⟩ := List.countP_pos_iff.mp hpos'
      refine ⟨kv, mem_of_mem_aerase' hkv, ?_, by simpa using hp⟩
      rw [hdel] at hkv
      rcases List.mem_append.mp hkv with hkv | hkv
      · exact hl₁ kv hkv
      · rw [hsplit, List.pairwise_append] at h4
        have hh := (List.pairwise_cons.mp h4.2.1).1 kv hkv
        exact fun hx => hh hx.symm
    · rintro ⟨kv, hkv, hne, hns⟩
      have hkv' : kv ∈ aerase s.tools id := by
        rw [hdel]
        rw [hsplit] at hkv
        rcases List.mem_append.mp hkv with hkv | hkv
        · exact List.mem_append_left _ hkv
        · rcases List.mem_cons.mp hkv with rfl | hkv
          · exact absurd rfl hne
          · exact List.mem_append_right _ hkv
      have hpos' : 0 < (aerase s.tools id).countP
          (fun kv => decide (kv.2.tool.Namespace = r.tool.Namespace)) :=
        countP_pos_of_mem hkv' (by simpa using hns)
      exact_mod_cast hpos'

/-- C6 (witness): unregistering the single local backend of the `zebra`
tool in the concrete three-tool state deletes it, while its namespace stays
listed because two other tools share it. -/
theorem C6_witness :
    getTool (mkTool "zebra" "ns").ToolID
        (unregisterBackend (mkTool "zebra" "ns").ToolID BackendKind.locl
          (chs "h3") demoState).1
      = Except.error IndexError.notFound
    ∧ getAllBackends (mkTool "zebra" "ns").ToolID
        (unregisterBackend (mkTool "zebra" "ns").ToolID BackendKind.locl
          (chs "h3") demoState).1
      = Except.error IndexError.notFound
    ∧ (demoZebraRecord.tool.Namespace ∈ listNamespaces
          (unregisterBackend (mkTool "zebra" "ns").ToolID BackendKind.locl
            (chs "h3") demoState).1
        ↔ ∃ kv ∈ demoState.tools, kv.1 ≠ (mkTool "zebra" "ns").ToolID
            ∧ kv.2.tool.Namespace = demoZebraRecord.tool.Namespace) :=
  C6_unregister_last_backend demoState
    (Reach.reg _ _ _ (Reach.reg _ _ _ (Reach.reg _ _ _ Reach.init)))
    (mkTool "zebra" "ns").ToolID demoZebraRecord BackendKind.locl (chs "h3")
    (by rfl) (by rfl) (by rfl)

end ToolIndexSpec
